import Mathlib

/-!
Verification development for the tabular health-record preprocessing
pipeline and the CRM front-end pages of this repository.

The pipeline implementation (`diabetes_data_processor.py`) is not part of
the checked-in sources; only `PROJECT_SUMMARY.md` documents it.  All
pipeline definitions below are therefore modelled from the specification
(sections 2-7 of `spec.md`) and carry a doc comment saying so.  The
front-end helpers (`getScoreColor`, the signup `handleSubmit`) are
translated directly from the TypeScript sources.
-/

set_option maxHeartbeats 1000000
set_option maxRecDepth 100000

namespace Pipeline

/-- Modelled from the spec: a cell value of a Record is numeric,
categorical (a string), or the missing marker (spec section 3). Numeric
values are represented by rationals. -/
inductive Value where
  | num (q : ℚ)
  | cat (s : String)
  | missing
  deriving DecidableEq, Repr

/-- Modelled from the spec: the declared kind of a column
(numeric / categorical / identifier / target), spec section 3. -/
inductive ColKind where
  | numeric
  | categorical
  | identifier
  | target
  deriving DecidableEq, Repr

/-- A Record: a mapping from column name to value, as an association list. -/
abbrev Row := List (String × Value)

/-- Modelled from the spec: a Dataset is an ordered sequence of Records
sharing a column schema, plus a mapping from column name to declared kind
(spec section 3). -/
structure Dataset where
  schema : List (String × ColKind)
  rows : List Row
  deriving DecidableEq, Repr

/-- First-occurrence lookup of a column value in a record. -/
def rlookup (c : String) : Row → Option Value
  | [] => none
  | (k, v) :: r => if k = c then some v else rlookup c r

/-- Read a record's value at a column, defaulting to the missing marker. -/
def rowGet (r : Row) (c : String) : Value :=
  (rlookup c r).getD Value.missing

/-- Overwrite (or create) the value of column `c` in a record. -/
def rowSet (r : Row) (c : String) (v : Value) : Row :=
  r.filter (fun kv => kv.1 ≠ c) ++ [(c, v)]

/-- Remove column `c` from a record. -/
def rowDrop (r : Row) (c : String) : Row :=
  r.filter (fun kv => kv.1 ≠ c)

/-- Rewrite every cell of a record through a column-name-indexed function. -/
def rowMapVals (f : String → Value → Value) (r : Row) : Row :=
  r.map (fun kv => (kv.1, f kv.1 kv.2))

/-- The ordered list of values of column `c` across the dataset rows. -/
def getColumn (d : Dataset) (c : String) : List Value :=
  d.rows.map (fun r => rowGet r c)

/-- The column names of a dataset's schema. -/
def schemaNames (d : Dataset) : List String :=
  d.schema.map Prod.fst

theorem rlookup_rowMapVals (f : String → Value → Value) (r : Row) (c : String) :
    rlookup c (rowMapVals f r) = (rlookup c r).map (f c) := by
  induction r with
  | nil => rfl
  | cons kv r ih =>
    obtain ⟨k, v⟩ := kv
    by_cases h : k = c
    · simp [rowMapVals, rlookup, h] at ih ⊢
    · simp [rowMapVals, rlookup, h] at ih ⊢
      simpa [rowMapVals] using ih

theorem rlookup_filter_ne (r : Row) (c t : String) (h : t ≠ c) :
    rlookup t (r.filter (fun kv => kv.1 ≠ c)) = rlookup t r := by
  induction r with
  | nil => rfl
  | cons kv r ih =>
    obtain ⟨k, v⟩ := kv
    simp only [ne_eq, decide_not] at ih
    by_cases hk : k = c
    · subst hk
      have hkt : ¬(k = t) := fun hh => h hh.symm
      simp [List.filter_cons, rlookup, hkt, ih]
    · by_cases ht : k = t
      · subst ht; simp [List.filter_cons, rlookup, hk]
      · simp [List.filter_cons, rlookup, hk, ht, ih]

theorem rlookup_filter_self (r : Row) (c : String) :
    rlookup c (r.filter (fun kv => kv.1 ≠ c)) = none := by
  induction r with
  | nil => rfl
  | cons kv r ih =>
    obtain ⟨k, v⟩ := kv
    simp only [ne_eq, decide_not] at ih
    by_cases hk : k = c
    · subst hk; simpa [List.filter_cons] using ih
    · simp [List.filter_cons, rlookup, hk, ih]

theorem rlookup_append (r₁ r₂ : Row) (c : String) :
    rlookup c (r₁ ++ r₂) =
      match rlookup c r₁ with
      | some v => some v
      | none => rlookup c r₂ := by
  induction r₁ with
  | nil => simp [rlookup]
  | cons kv r ih =>
    obtain ⟨k, v⟩ := kv
    by_cases h : k = c <;> simp [rlookup, h, ih]

theorem rowGet_rowSet_same (r : Row) (c : String) (v : Value) :
    rowGet (rowSet r c v) c = v := by
  unfold rowGet rowSet
  rw [rlookup_append, rlookup_filter_self]
  simp [rlookup]

theorem rowGet_rowSet_ne (r : Row) (c t : String) (v : Value) (h : t ≠ c) :
    rowGet (rowSet r c v) t = rowGet r t := by
  unfold rowGet rowSet
  rw [rlookup_append, rlookup_filter_ne r c t h]
  cases hr : rlookup t r with
  | some w => simp
  | none =>
    have hct : ¬(c = t) := fun hh => h hh.symm
    simp [rlookup, hct]

theorem rowGet_rowDrop_ne (r : Row) (c t : String) (h : t ≠ c) :
    rowGet (rowDrop r c) t = rowGet r t := by
  unfold rowGet rowDrop
  rw [rlookup_filter_ne r c t h]

theorem rowGet_rowMapVals (f : String → Value → Value) (r : Row) (c : String)
    (hf : f c Value.missing = Value.missing) :
    rowGet (rowMapVals f r) c = f c (rowGet r c) := by
  unfold rowGet
  rw [rlookup_rowMapVals]
  cases rlookup c r <;> simp [hf]

theorem rowMapVals_rowMapVals (f g : String → Value → Value) (r : Row) :
    rowMapVals f (rowMapVals g r) = rowMapVals (fun k v => f k (g k v)) r := by
  unfold rowMapVals
  rw [List.map_map]
  rfl

/-- Duplicate removal keeping first occurrences (tail-recursive over a seen
accumulator), used by the Cleaner and for distinct-category counting. -/
def dedupFirstAux {α : Type} [DecidableEq α] (seen : List α) : List α → List α
  | [] => []
  | x :: xs => if x ∈ seen then dedupFirstAux seen xs else x :: dedupFirstAux (x :: seen) xs

/-- Duplicate removal keeping first occurrences. -/
def dedupFirst {α : Type} [DecidableEq α] (l : List α) : List α :=
  dedupFirstAux [] l

/-- The numeric values of a column, in row order. -/
def numericValues (col : List Value) : List ℚ :=
  col.filterMap (fun v =>
    match v with
    | Value.num q => some q
    | _ => none)

/-- The number of missing cells of a column. -/
def countMissing (col : List Value) : Nat :=
  col.countP (fun v => v = Value.missing)

/-- The fraction of missing cells of a column. -/
def missingFrac (col : List Value) : ℚ :=
  (countMissing col : ℚ) / (col.length : ℚ)

/-- Sort a list of rationals ascending (insertion sort). -/
def sortQ (l : List ℚ) : List ℚ :=
  l.insertionSort (· ≤ ·)

/-- Nearest-rank first quartile of a rational list: the sorted element at
0-based index `⌈n/4⌉ - 1`. -/
def quartile1 (l : List ℚ) : ℚ :=
  (sortQ l).getD ((l.length + 3) / 4 - 1) 0

/-- Nearest-rank third quartile of a rational list: the sorted element at
0-based index `⌈3n/4⌉ - 1`. -/
def quartile3 (l : List ℚ) : ℚ :=
  (sortQ l).getD ((3 * l.length + 3) / 4 - 1) 0

/-- Lower outlier bound `Q1 - 1.5 * IQR` (spec section 4.4). -/
def loBound (l : List ℚ) : ℚ :=
  quartile1 l - 3 / 2 * (quartile3 l - quartile1 l)

/-- Upper outlier bound `Q3 + 1.5 * IQR` (spec section 4.4). -/
def hiBound (l : List ℚ) : ℚ :=
  quartile3 l + 3 / 2 * (quartile3 l - quartile1 l)

/-- Clip a rational to the interval `[lo, hi]`. -/
def clampQ (lo hi x : ℚ) : ℚ :=
  max lo (min hi x)

/-- Clip a cell value: numeric cells are clamped, other cells are unchanged. -/
def clampCell (lo hi : ℚ) : Value → Value
  | Value.num q => Value.num (clampQ lo hi q)
  | v => v

/-- Median of a rational list (the usual sorted-middle rule, 0 on empty). -/
def medianOf (l : List ℚ) : ℚ :=
  let s := sortQ l
  let n := l.length
  if n = 0 then 0
  else if n % 2 = 1 then s.getD (n / 2) 0
  else (s.getD (n / 2 - 1) 0 + s.getD (n / 2) 0) / 2

/-- Mean of a rational list (0 on empty). -/
def meanOf (l : List ℚ) : ℚ :=
  if l.length = 0 then 0 else l.sum / (l.length : ℚ)

/-- Population variance of a rational list (0 on empty). -/
def varOf (l : List ℚ) : ℚ :=
  meanOf (l.map (fun x => (x - meanOf l) ^ 2))

/-- Modelled from the spec: DataFormatError — a required column is absent or
a categorical value falls outside its expected domain (spec section 7). -/
structure DataFormatError where
  message : String
  deriving DecidableEq, Repr

/-- Modelled from the spec: InsufficientDataError — dataset too small or the
target has no class variation for importance ranking (spec section 7). -/
structure InsufficientDataError where
  message : String
  deriving DecidableEq, Repr

/-- The name of the derived binary target column. -/
def targetCol : String := "readmitted_30_days"

/-- The name of the raw readmission-status column. -/
def readmissionCol : String := "readmitted"

/-- Modelled from the spec: the fixed set of "expired/hospice"
discharge-disposition codes whose rows the Cleaner removes
(spec section 4.1); the concrete codes follow the Diabetes 130-US
hospitals dataset documented in PROJECT_SUMMARY.md. -/
def expiredCodes : List Value :=
  [Value.num 11, Value.num 13, Value.num 14, Value.num 19, Value.num 20, Value.num 21]

/-- Modelled from the spec: the missing-value sentinel literal rewritten to
the missing state by the Cleaner (spec section 4.1). -/
def sentinelCell (v : Value) : Value :=
  if v = Value.cat "?" then Value.missing else v

/-- Modelled from the spec: the Cleaner stage (spec section 4.1) —
(a) exact duplicate rows removed, (b) the "?" sentinel rewritten to the
missing state in every column, (c) rows with an expired/hospice
discharge-disposition code removed, (d) rows whose gender is the explicit
"Unknown/Invalid" category removed; raises DataFormatError when a column
required by the filters is absent from the schema. -/
def cleaner (d : Dataset) : Except DataFormatError Dataset :=
  if "discharge_disposition_id" ∈ schemaNames d ∧ "gender" ∈ schemaNames d then
    let r1 := dedupFirst d.rows
    let r2 := r1.map (rowMapVals (fun _ v => sentinelCell v))
    let r3 := r2.filter (fun r => rowGet r "discharge_disposition_id" ∉ expiredCodes)
    let r4 := r3.filter (fun r => rowGet r "gender" ≠ Value.cat "Unknown/Invalid")
    Except.ok { schema := d.schema, rows := r4 }
  else
    Except.error ⟨"missing required column for cleaning"⟩

/-- Fallible map over a list in the Except monad, stopping at the first
error (structural recursion so proofs and kernel evaluation are direct). -/
def exceptMap {ε α β : Type} (f : α → Except ε β) : List α → Except ε (List β)
  | [] => Except.ok []
  | x :: xs =>
    match f x with
    | Except.error e => Except.error e
    | Except.ok y =>
      match exceptMap f xs with
      | Except.error e => Except.error e
      | Except.ok ys => Except.ok (y :: ys)

/-- Modelled from the spec: per-row derivation of the binary target — the
"readmitted within 30 days" category maps to 1, the other two categories
map to 0, anything else is a DataFormatError (spec section 4.2). -/
def deriveRow (r : Row) : Except DataFormatError Row :=
  if rowGet r readmissionCol = Value.cat "<30" then
    Except.ok (rowSet r targetCol (Value.num 1))
  else if rowGet r readmissionCol = Value.cat ">30" ∨
      rowGet r readmissionCol = Value.cat "NO" then
    Except.ok (rowSet r targetCol (Value.num 0))
  else Except.error ⟨"unexpected readmission category"⟩

/-- Modelled from the spec: the TargetDeriver stage (spec section 4.2) —
reads the readmission-status column and produces the new binary target
column; fails with DataFormatError if the source column is missing from
the schema or a row holds a category outside the three expected values. -/
def targetDeriver (d : Dataset) : Except DataFormatError Dataset :=
  if readmissionCol ∈ schemaNames d then
    match exceptMap deriveRow d.rows with
    | Except.error e => Except.error e
    | Except.ok rows' =>
      Except.ok
        { schema := d.schema.filter (fun ck => ck.1 ≠ targetCol) ++ [(targetCol, ColKind.target)],
          rows := rows' }
  else
    Except.error ⟨"readmission-status column absent"⟩

/-- Modelled from the spec: an imputation strategy, one of the tagged
variants of spec section 4.3's contract — modal fill for categorical
columns, median fill, neighbor-based fill, or dropping a fully missing
column. -/
inductive Strategy where
  | mode (v : Value)
  | median (q : ℚ)
  | neighborFill
  | drop
  deriving DecidableEq, Repr

/-- The non-missing cells of a column. -/
def presentValues (col : List Value) : List Value :=
  col.filter (fun v => v ≠ Value.missing)

/-- Modal (most frequent) non-missing value of a column; ties are broken
by the first-encountered value in column order (spec section 4.3). -/
def modeValue (col : List Value) : Value :=
  match dedupFirst (presentValues col) with
  | [] => Value.missing
  | v :: vs =>
    vs.foldl (fun best w =>
      if (presentValues col).count w > (presentValues col).count best then w else best) v

/-- Modelled from the spec: the Imputer's per-column strategy selection
(spec section 4.3) — a 100%-missing column is dropped; a categorical
column gets its mode; a numeric column gets the median when its missing
fraction is strictly below 20% and the neighbor-based fill otherwise.
The zero-variance edge case of spec section 4.3 is handled inside the
neighbor fill itself (the search degenerates to the constant). -/
def decideStrategy (k : ColKind) (col : List Value) : Strategy :=
  if countMissing col = col.length then Strategy.drop
  else
    match k with
    | ColKind.categorical => Strategy.mode (modeValue col)
    | ColKind.numeric =>
      if missingFrac col < 1 / 5 then Strategy.median (medianOf (numericValues col))
      else Strategy.neighborFill
    | _ => Strategy.drop

/-- Modelled from the spec: the columns the Imputer acts on, with their
selected strategies — every non-identifier, non-target column holding at
least one missing value (spec section 4.3). -/
def imputeTargets (d : Dataset) : List (String × Strategy) :=
  d.schema.filterMap (fun ck =>
    if ck.2 = ColKind.identifier ∨ ck.2 = ColKind.target then none
    else if countMissing (getColumn d ck.1) = 0 then none
    else some (ck.1, decideStrategy ck.2 (getColumn d ck.1)))

/-- The fully populated numeric columns other than `c`, with their means
and (nonzero) variances, used to standardize neighbor distances. -/
def knnStats (d : Dataset) (c : String) : List (String × ℚ) :=
  d.schema.filterMap (fun ck =>
    if ck.2 = ColKind.numeric ∧ ck.1 ≠ c ∧ countMissing (getColumn d ck.1) = 0 then
      let v := varOf (numericValues (getColumn d ck.1))
      if v = 0 then none else some (ck.1, v)
    else none)

/-- Squared Euclidean distance between two rows over variance-standardized
numeric coordinates. -/
def dist2 (stats : List (String × ℚ)) (r r' : Row) : ℚ :=
  (stats.map (fun cv =>
    match rowGet r cv.1, rowGet r' cv.1 with
    | Value.num a, Value.num b => (a - b) ^ 2 / cv.2
    | _, _ => 0)).sum

/-- Ascending insertion sort of (distance, value) pairs by distance. -/
def sortByDist (l : List (ℚ × ℚ)) : List (ℚ × ℚ) :=
  l.insertionSort (fun p q => p.1 ≤ q.1)

/-- Modelled from the spec: the neighbor-based estimate for a missing entry
of column `c` in row `r` — the k = 5 nearest rows (squared distance over
standardized fully-populated numeric columns) observed in `c`, combined by
an inverse-distance weighted mean; exact-distance-zero neighbors are
averaged directly, a zero-variance column is filled with its constant
directly, and the median is the no-candidate fallback (spec section 4.3;
the spec fixes the scheme, not the exact metric formula). -/
def knnEstimate (d : Dataset) (c : String) (r : Row) : ℚ :=
  let obs := numericValues (getColumn d c)
  if varOf obs = 0 then meanOf obs
  else
    let stats := knnStats d c
    let cands := d.rows.filterMap (fun r' =>
      match rowGet r' c with
      | Value.num q => some (dist2 stats r r', q)
      | _ => none)
    let nearest := (sortByDist cands).take 5
    if nearest = [] then medianOf obs
    else if (nearest.filter (fun p => p.1 = 0)) ≠ [] then
      meanOf ((nearest.filter (fun p => p.1 = 0)).map Prod.snd)
    else
      (nearest.map (fun p => p.2 / p.1)).sum / (nearest.map (fun p => 1 / p.1)).sum

/-- Fill the missing cells of column `c` with a fixed value. -/
def fillConst (d : Dataset) (c : String) (v : Value) : Dataset :=
  { schema := d.schema,
    rows := d.rows.map (rowMapVals (fun k w =>
      if k = c ∧ w = Value.missing then v else w)) }

/-- Modelled from the spec: applying one selected imputation strategy to
its column (spec section 4.3). -/
def applyStrategy (d : Dataset) (c : String) : Strategy → Dataset
  | Strategy.mode v => fillConst d c v
  | Strategy.median q => fillConst d c (Value.num q)
  | Strategy.neighborFill =>
    { schema := d.schema,
      rows := d.rows.map (fun r => rowMapVals (fun k w =>
        if k = c ∧ w = Value.missing then Value.num (knnEstimate d c r) else w) r) }
  | Strategy.drop =>
    { schema := d.schema.filter (fun ck => ck.1 ≠ c),
      rows := d.rows.map (fun r => rowDrop r c) }

/-- Modelled from the spec: the Imputer stage (spec section 4.3) — fits one
strategy per eligible column, then applies each in schema order. -/
def imputer (d : Dataset) : Dataset :=
  (imputeTargets d).foldl (fun acc cs => applyStrategy acc cs.1 cs.2) d

/-- Modelled from the spec: the per-column outlier bounds
`[Q1 - 1.5*IQR, Q3 + 1.5*IQR]`, one pair for each numeric, non-identifier,
non-target column with at least one numeric value (spec section 4.4 and
the OutlierBounds record of section 3). -/
def mkBounds (d : Dataset) : List (String × ℚ × ℚ) :=
  d.schema.filterMap (fun ck =>
    if ck.2 = ColKind.numeric then
      let nv := numericValues (getColumn d ck.1)
      if nv = [] then none else some (ck.1, loBound nv, hiBound nv)
    else none)

/-- First-occurrence lookup in an outlier-bounds list. -/
def blookup (c : String) : List (String × ℚ × ℚ) → Option (ℚ × ℚ)
  | [] => none
  | b :: bs => if b.1 = c then some b.2 else blookup c bs

/-- Clip one cell according to a bounds list, keyed by column name. -/
def clampByBounds (bounds : List (String × ℚ × ℚ)) (k : String) (v : Value) : Value :=
  match blookup k bounds with
  | some lh => clampCell lh.1 lh.2 v
  | none => v

/-- Modelled from the spec: the OutlierHandler stage (spec section 4.4) —
computes quartile-based bounds per numeric non-identifier non-target
column and clips every value outside the bounds to the nearest bound;
rows are never removed. -/
def outlierHandler (d : Dataset) : Dataset :=
  { schema := d.schema,
    rows := d.rows.map (rowMapVals (clampByBounds (mkBounds d))) }

/-- Interpret a list of decimal digit characters as a natural number. -/
def digitsToNat (l : List Char) : Nat :=
  l.foldl (fun acc ch => acc * 10 + (ch.toNat - '0'.toNat)) 0

/-- Modelled from the spec: parse the bracketed age range "[a-b)" into its
midpoint (spec section 4.5); `none` when the cell is not of that shape. -/
def parseAgeMid (v : Value) : Option ℚ :=
  match v with
  | Value.cat s =>
    match s.data with
    | '[' :: rest =>
      let beforeDash := rest.takeWhile (fun ch => ch ≠ '-')
      let afterDash := (rest.dropWhile (fun ch => ch ≠ '-')).drop 1
      let beforeParen := afterDash.takeWhile (fun ch => ch ≠ ')')
      if beforeDash ≠ [] ∧ beforeDash.all Char.isDigit ∧
          beforeParen ≠ [] ∧ beforeParen.all Char.isDigit then
        some (((digitsToNat beforeDash : ℚ) + (digitsToNat beforeParen : ℚ)) / 2)
      else none
    | _ => none
  | _ => none

/-- Modelled from the spec: the fixed list of medication columns whose
dosage changes are counted (spec section 4.5; the 23 diabetes medication
columns documented in PROJECT_SUMMARY.md). -/
def medicationCols : List String :=
  ["metformin", "repaglinide", "nateglinide", "chlorpropamide", "glimepiride",
   "acetohexamide", "glipizide", "glyburide", "tolbutamide", "pioglitazone",
   "rosiglitazone", "acarbose", "miglitol", "troglitazone", "tolazamide",
   "examide", "citoglipton", "insulin", "glyburide-metformin",
   "glipizide-metformin", "glimepiride-pioglitazone", "metformin-rosiglitazone",
   "metformin-pioglitazone"]

/-- A medication cell indicates a dosage change when it holds a category
other than "No" (spec section 4.5: any value other than "no change"). -/
def medChanged (v : Value) : Bool :=
  match v with
  | Value.cat s => s ≠ "No"
  | _ => false

/-- The numeric content of a cell, 0 for non-numeric cells. -/
def numOr0 (v : Value) : ℚ :=
  match v with
  | Value.num q => q
  | _ => 0

/-- Add one engineered column when all of its source columns are present in
the schema; otherwise the derived feature is skipped (spec section 4.5's
failure mode). -/
def addColIf (d : Dataset) (sources : List String) (name : String)
    (k : ColKind) (f : Row → Value) : Dataset :=
  if sources.all (fun s => s ∈ schemaNames d) then
    { schema := d.schema.filter (fun ck => ck.1 ≠ name) ++ [(name, k)],
      rows := d.rows.map (fun r => rowSet r name (f r)) }
  else d

/-- Modelled from the spec: the FeatureEngineer stage (spec section 4.5) —
derives the fixed set of numeric columns (age midpoint, age group,
medications changed, diagnosis complexity, service utilization, high-risk
indicator with 75th-percentile thresholds, lab-procedure efficiency with
safe division), never removing source columns; a feature whose source
column is absent is skipped. -/
def featureEngineer (d : Dataset) : Dataset :=
  let d1 := addColIf d ["age"] "age_numeric" ColKind.numeric (fun r =>
    match parseAgeMid (rowGet r "age") with
    | some q => Value.num q
    | none => Value.missing)
  let d2 := addColIf d1 ["age"] "age_group" ColKind.numeric (fun r =>
    match parseAgeMid (rowGet r "age") with
    | some q => Value.num (if q < 30 then 0 else if q < 60 then 1 else 2)
    | none => Value.missing)
  let d3 := addColIf d2 medicationCols "total_meds_changed" ColKind.numeric (fun r =>
    Value.num (medicationCols.countP (fun c => medChanged (rowGet r c)) : ℚ))
  let d4 := addColIf d3 ["diag_1", "diag_2", "diag_3"] "diagnosis_complexity"
    ColKind.numeric (fun r =>
      Value.num ((["diag_1", "diag_2", "diag_3"].countP
        (fun c => rowGet r c ≠ Value.missing) : Nat) : ℚ))
  let d5 := addColIf d4 ["number_outpatient", "number_emergency", "number_inpatient"]
    "service_utilization" ColKind.numeric (fun r =>
      Value.num (numOr0 (rowGet r "number_outpatient") +
        numOr0 (rowGet r "number_emergency") + numOr0 (rowGet r "number_inpatient")))
  let stayQ3 := quartile3 (numericValues (getColumn d5 "time_in_hospital"))
  let procQ3 := quartile3 (numericValues (getColumn d5 "num_procedures"))
  let d6 := addColIf d5 ["time_in_hospital", "num_procedures"] "high_risk_patient"
    ColKind.numeric (fun r =>
      if numOr0 (rowGet r "time_in_hospital") > stayQ3 ∧
          numOr0 (rowGet r "num_procedures") > procQ3 then Value.num 1 else Value.num 0)
  let d7 := addColIf d6 ["num_lab_procedures", "time_in_hospital"]
    "lab_procedure_efficiency" ColKind.numeric (fun r =>
      if numOr0 (rowGet r "time_in_hospital") = 0 then Value.num 0
      else Value.num (numOr0 (rowGet r "num_lab_procedures") /
        numOr0 (rowGet r "time_in_hospital")))
  d7

/-- Normalize a generated column name to the single consistent convention of
spec section 4.6: lowercase, word-separator character, no punctuation. -/
def normalizeName (s : String) : String :=
  String.mk (s.data.map (fun ch => if ch.isAlphanum then ch.toLower else '_'))

/-- The distinct category strings of a column, in first-encountered order. -/
def distinctCats (col : List Value) : List String :=
  dedupFirst (col.filterMap (fun v =>
    match v with
    | Value.cat s => some s
    | _ => none))

/-- Ordinal code of a cell: the position of its category in the stable
first-encountered ordering (spec section 4.6). -/
def ordCode (cats : List String) (v : Value) : ℚ :=
  match v with
  | Value.cat s => (cats.indexOf s : ℚ)
  | _ => 0

/-- Modelled from the spec: encode one categorical column (spec section
4.6) — at most 10 distinct values: replaced by one 0/1 indicator column
per category (normalized names, original column removed); more than 10:
replaced in place by a single integer-code column with the stable
first-encountered mapping. -/
def encodeOne (d : Dataset) (c : String) : Dataset :=
  let cats := distinctCats (getColumn d c)
  if cats.length ≤ 10 then
    { schema := d.schema.filter (fun ck => ck.1 ≠ c) ++
        cats.map (fun s => (normalizeName (c ++ "_" ++ s), ColKind.numeric)),
      rows := d.rows.map (fun r =>
        rowDrop r c ++ cats.map (fun s =>
          (normalizeName (c ++ "_" ++ s),
            if rowGet r c = Value.cat s then Value.num 1 else Value.num 0))) }
  else
    { schema := d.schema.map (fun ck =>
        if ck.1 = c ∧ ck.2 = ColKind.categorical then (ck.1, ColKind.numeric) else ck),
      rows := d.rows.map (rowMapVals (fun k v =>
        if k = c then Value.num (ordCode cats v) else v)) }

/-- The categorical columns remaining in the schema. -/
def catColumns (d : Dataset) : List String :=
  d.schema.filterMap (fun ck =>
    if ck.2 = ColKind.categorical then some ck.1 else none)

/-- Modelled from the spec: the CategoricalEncoder stage (spec section 4.6)
— encodes every remaining categorical column with the cardinality-gated
dual strategy. -/
def categoricalEncoder (d : Dataset) : Dataset :=
  (catColumns d).foldl encodeOne d

/-- An importance score entry: column, the two estimator scores, the
combined normalized score and the final rank (spec section 3). -/
structure ImportanceScore where
  column : String
  scoreA : ℚ
  scoreB : ℚ
  combined : ℚ
  rank : Nat
  deriving DecidableEq, Repr

/-- The feature columns scored by the ranker: every non-identifier,
non-target column. -/
def featureCols (d : Dataset) : List String :=
  d.schema.filterMap (fun ck =>
    if ck.2 = ColKind.identifier ∨ ck.2 = ColKind.target then none else some ck.1)

/-- The numeric values of column `c` on the rows whose target equals `t`. -/
def classValues (d : Dataset) (c : String) (t : ℚ) : List ℚ :=
  numericValues ((d.rows.filter (fun r => rowGet r targetCol = Value.num t)).map
    (fun r => rowGet r c))

/-- Modelled from the spec: estimator A, the tree-ensemble relevance score
(spec section 4.7); the spec fixes only its role, so it is stood in for by
a deterministic class-separation measure — the absolute difference of the
feature's class-conditional means. -/
def estimatorA (d : Dataset) (c : String) : ℚ :=
  |meanOf (classValues d c 1) - meanOf (classValues d c 0)|

/-- Modelled from the spec: estimator B, the mutual-information relevance
score (spec section 4.7); the spec fixes only its role, so it is stood in
for by a deterministic dependency measure — the absolute covariance of the
feature with the target. -/
def estimatorB (d : Dataset) (c : String) : ℚ :=
  let xs := d.rows.map (fun r => numOr0 (rowGet r c))
  let ys := d.rows.map (fun r => numOr0 (rowGet r targetCol))
  |meanOf (List.zipWith (· * ·) xs ys) - meanOf xs * meanOf ys|

/-- Minimum of a rational list (0 on empty). -/
def minOf (l : List ℚ) : ℚ :=
  match l with
  | [] => 0
  | x :: xs => xs.foldl min x

/-- Maximum of a rational list (0 on empty). -/
def maxOf (l : List ℚ) : ℚ :=
  match l with
  | [] => 0
  | x :: xs => xs.foldl max x

/-- Min-max normalization of a score to the range [0,1] across all
features (spec section 4.7); constant score sets normalize to 0. -/
def minMaxNorm (l : List ℚ) (x : ℚ) : ℚ :=
  if maxOf l = minOf l then 0 else (x - minOf l) / (maxOf l - minOf l)

/-- Ordering of scored features: descending by combined score, ties broken
by column name in natural order (spec section 4.7). -/
def scoreOrder (p q : String × ℚ × ℚ × ℚ) : Prop :=
  p.2.2.2 > q.2.2.2 ∨ (p.2.2.2 = q.2.2.2 ∧ p.1 ≤ q.1)

instance : DecidableRel scoreOrder := by
  intro p q
  unfold scoreOrder
  infer_instance

/-- Modelled from the spec: the ranking computation of spec section 4.7 —
both score sets min-max normalized, combined by an unweighted average,
ranked descending with name tie-break. -/
def rankingOf (d : Dataset) : List ImportanceScore :=
  let cols := featureCols d
  let rawA := cols.map (estimatorA d)
  let rawB := cols.map (estimatorB d)
  let scored := cols.map (fun c =>
    let a := minMaxNorm rawA (estimatorA d c)
    let b := minMaxNorm rawB (estimatorB d c)
    (c, a, b, (a + b) / 2))
  (((scored.insertionSort scoreOrder).zip (List.range scored.length)).map
    (fun pi => ⟨pi.1.1, pi.1.2.1, pi.1.2.2.1, pi.1.2.2.2, pi.2 + 1⟩))

/-- The distinct observed target classes of the working dataset. -/
def observedTargetClasses (d : Dataset) : Nat :=
  (dedupFirst (d.rows.map (fun r => rowGet r targetCol))).length

/-- Modelled from the spec: the ImportanceRanker stage (spec section 4.7) —
raises InsufficientDataError when the working dataset has fewer than 50
rows or the target column has only one observed class; otherwise computes
the combined ranking. -/
def importanceRanker (d : Dataset) : Except InsufficientDataError (List ImportanceScore) :=
  if d.rows.length < 50 then
    Except.error ⟨"dataset below the 50-row minimum"⟩
  else if observedTargetClasses d ≤ 1 then
    Except.error ⟨"target column has a single observed class"⟩
  else
    Except.ok (rankingOf d)

/-- Modelled from the spec: the running metadata report accumulated across
stages — counts removed, class balance, strategies chosen, outlier bounds
and encoding cardinalities (spec sections 2, 3 and 6). -/
structure Report where
  rowsIn : Nat
  duplicatesRemoved : Nat
  expiredRemoved : Nat
  invalidGenderRemoved : Nat
  positiveCount : Nat
  negativeCount : Nat
  imputations : List (String × Strategy)
  outlierBounds : List (String × ℚ × ℚ)
  encodings : List (String × Nat)
  deriving DecidableEq, Repr

/-- Count of rows whose derived target holds the given numeric value. -/
def targetCount (d : Dataset) (t : ℚ) : Nat :=
  d.rows.countP (fun r => rowGet r targetCol = Value.num t)

/-- Modelled from the spec: assembling the metadata report from the stage
outputs (spec section 2: each stage appends counts removed, strategies
chosen, bounds computed). -/
def buildReport (raw d1 d2 d3 d5 : Dataset) : Report :=
  let r1 := dedupFirst raw.rows
  let r2 := r1.map (rowMapVals (fun _ v => sentinelCell v))
  let r3 := r2.filter (fun r => rowGet r "discharge_disposition_id" ∉ expiredCodes)
  { rowsIn := raw.rows.length,
    duplicatesRemoved := raw.rows.length - r1.length,
    expiredRemoved := r2.length - r3.length,
    invalidGenderRemoved := r3.length - d1.rows.length,
    positiveCount := targetCount d2 1,
    negativeCount := targetCount d2 0,
    imputations := imputeTargets d2,
    outlierBounds := mkBounds d3,
    encodings := (catColumns d5).map (fun c => (c, (distinctCats (getColumn d5 c)).length)) }

/-- Modelled from the spec: the single entry point of the core,
`run(rawDataset) -> (processedDataset, metadataReport, importanceRanking)`
(spec section 6), executing the stages strictly in sequence (spec section
2); a DataFormatError halts the run, while an InsufficientDataError is
attached to the ranking result only (spec section 7). -/
def run (raw : Dataset) :
    Except DataFormatError
      (Dataset × Report × Except InsufficientDataError (List ImportanceScore)) :=
  match cleaner raw with
  | Except.error e => Except.error e
  | Except.ok d1 =>
    match targetDeriver d1 with
    | Except.error e => Except.error e
    | Except.ok d2 =>
      let d3 := imputer d2
      let d4 := outlierHandler d3
      let d5 := featureEngineer d4
      let d6 := categoricalEncoder d5
      Except.ok (d6, buildReport raw d1 d2 d3 d5, importanceRanker d6)

end Pipeline

namespace Frontend

/-- The `getScoreColor` helper of the AI-leads page: a cascade of
threshold checks on the lead score returning a Tailwind color class pair
(translated from the TypeScript source). -/
def getScoreColor (score : ℚ) : String :=
  if score ≥ 90 then "text-green-600 bg-green-100"
  else if score ≥ 80 then "text-blue-600 bg-blue-100"
  else if score ≥ 70 then "text-yellow-600 bg-yellow-100"
  else "text-red-600 bg-red-100"

/-- The signup form state of the signup page (translated from the
TypeScript source). -/
structure SignupForm where
  name : String
  email : String
  password : String
  confirmPassword : String
  businessType : String
  deriving DecidableEq, Repr

/-- The externally observable effects of one `handleSubmit` call on the
signup page: alerts raised, whether the loading state was set, and the
navigation initiated (translated from the TypeScript source; the 2-second
simulated delay before navigating is collapsed into the initiation of the
navigation). -/
structure SubmitEffects where
  alerts : List String
  loadingSet : Bool
  navigation : Option String
  deriving DecidableEq, Repr

/-- The signup page's `handleSubmit`: when the two password fields differ
it alerts and returns before any other effect; otherwise it sets the
loading state and navigates to /dashboard (translated from the TypeScript
source). -/
def handleSubmit (f : SignupForm) : SubmitEffects :=
  if f.password ≠ f.confirmPassword then
    { alerts := ["Passwords do not match"], loadingSet := false, navigation := none }
  else
    { alerts := [], loadingSet := true, navigation := some "/dashboard" }

/-- C9: the helper getScoreColor is a total function that partitions scores
into four exhaustive, mutually exclusive bands — green iff the score is at
least 90, blue iff it is in [80, 90), yellow iff it is in [70, 80), and
red exactly on every score below 70. -/
theorem getScoreColor_partitions_scores (s : ℚ) :
    (getScoreColor s = "text-green-600 bg-green-100" ↔ 90 ≤ s) ∧
    (getScoreColor s = "text-blue-600 bg-blue-100" ↔ 80 ≤ s ∧ s < 90) ∧
    (getScoreColor s = "text-yellow-600 bg-yellow-100" ↔ 70 ≤ s ∧ s < 80) ∧
    (getScoreColor s = "text-red-600 bg-red-100" ↔ s < 70) := by
  unfold getScoreColor
  split_ifs with h1 h2 h3
  · exact ⟨iff_of_true rfl h1,
      iff_of_false (by decide) (by rintro ⟨-, h⟩; linarith),
      iff_of_false (by decide) (by rintro ⟨-, h⟩; linarith),
      iff_of_false (by decide) (by intro h; linarith)⟩
  · exact ⟨iff_of_false (by decide) (fun h => h1 h),
      iff_of_true rfl ⟨h2, not_le.mp h1⟩,
      iff_of_false (by decide) (by rintro ⟨-, h⟩; linarith),
      iff_of_false (by decide) (by intro h; linarith)⟩
  · exact ⟨iff_of_false (by decide) (fun h => h1 h),
      iff_of_false (by decide) (by rintro ⟨h, -⟩; exact h2 h),
      iff_of_true rfl ⟨h3, not_le.mp h2⟩,
      iff_of_false (by decide) (by intro h; linarith)⟩
  · exact ⟨iff_of_false (by decide) (fun h => h1 h),
      iff_of_false (by decide) (by rintro ⟨h, -⟩; exact h2 h),
      iff_of_false (by decide) (by rintro ⟨h, -⟩; exact h3 h),
      iff_of_true rfl (not_le.mp h3)⟩

/-- C10: when the two password fields differ, handleSubmit alerts and
returns before any other effect — the loading state is never set and no
navigation to /dashboard is initiated; submission proceeds exactly when
the two fields are equal. -/
theorem handleSubmit_password_guard (f : SignupForm) :
    (f.password ≠ f.confirmPassword →
      (handleSubmit f).loadingSet = false ∧ (handleSubmit f).navigation = none ∧
      (handleSubmit f).alerts = ["Passwords do not match"]) ∧
    (f.password = f.confirmPassword →
      (handleSubmit f).loadingSet = true ∧
      (handleSubmit f).navigation = some "/dashboard") := by
  unfold handleSubmit
  by_cases h : f.password = f.confirmPassword
  · simp [h]
  · simp [h]

/-- A concrete signup form whose password fields disagree. -/
def mismatchedForm : SignupForm :=
  ⟨"Ada", "ada@example.com", "pw-one", "pw-two", "other"⟩

/-- Witness for C10 at a concrete form with differing passwords. -/
theorem handleSubmit_password_guard_witness :
    mismatchedForm.password ≠ mismatchedForm.confirmPassword ∧
    (handleSubmit mismatchedForm).loadingSet = false ∧
    (handleSubmit mismatchedForm).navigation = none :=
  ⟨by decide,
    ((handleSubmit_password_guard mismatchedForm).1 (by decide)).1,
    ((handleSubmit_password_guard mismatchedForm).1 (by decide)).2.1⟩

end Frontend

namespace Pipeline

theorem run_eq_ok_iff (raw : Dataset)
    (result : Dataset × Report × Except InsufficientDataError (List ImportanceScore)) :
    run raw = Except.ok result ↔
      ∃ d1 d2, cleaner raw = Except.ok d1 ∧ targetDeriver d1 = Except.ok d2 ∧
        result = (categoricalEncoder (featureEngineer (outlierHandler (imputer d2))),
          buildReport raw d1 d2 (imputer d2) (featureEngineer (outlierHandler (imputer d2))),
          importanceRanker (categoricalEncoder (featureEngineer (outlierHandler (imputer d2))))) := by
  unfold run
  cases hc : cleaner raw with
  | error e => simp
  | ok d1 =>
    dsimp only
    cases ht : targetDeriver d1 with
    | error e => simp [ht]
    | ok d2 =>
      dsimp only
      constructor
      · intro h
        exact ⟨d1, d2, rfl, ht, ((Except.ok.injEq _ _).mp h).symm⟩
      · rintro ⟨d1', d2', h1, h2, h3⟩
        obtain rfl : d1 = d1' := (Except.ok.injEq _ _).mp h1
        have hd2 : d2 = d2' := (Except.ok.injEq _ _).mp (ht.symm.trans h2)
        subst hd2
        rw [h3]

/-- C1: the entry point run maps a raw dataset to the triple
(processedDataset, metadataReport, importanceRanking), produced by the
stages Cleaner, TargetDeriver, Imputer, OutlierHandler, FeatureEngineer,
CategoricalEncoder, ImportanceRanker executed strictly in that order, each
stage consuming the complete output of the previous one. -/
theorem run_is_sequential_pipeline (raw : Dataset)
    (result : Dataset × Report × Except InsufficientDataError (List ImportanceScore)) :
    run raw = Except.ok result ↔
      ∃ d1 d2, cleaner raw = Except.ok d1 ∧ targetDeriver d1 = Except.ok d2 ∧
        result = (categoricalEncoder (featureEngineer (outlierHandler (imputer d2))),
          buildReport raw d1 d2 (imputer d2) (featureEngineer (outlierHandler (imputer d2))),
          importanceRanker (categoricalEncoder (featureEngineer (outlierHandler (imputer d2))))) :=
  run_eq_ok_iff raw result

end Pipeline

namespace Pipeline

/-- C8: when the working dataset has fewer than 50 rows or its target has a
single observed class, the ImportanceRanker yields InsufficientDataError,
and the error is attached to the ranking result only — the processed
dataset is exactly the output of the six earlier stages, unchanged by the
ranking outcome. -/
theorem ranker_insufficient_data (raw ds : Dataset) (rep : Report)
    (rk : Except InsufficientDataError (List ImportanceScore))
    (h : run raw = Except.ok (ds, rep, rk)) :
    ((ds.rows.length < 50 ∨ observedTargetClasses ds ≤ 1) → ∃ e, rk = Except.error e) ∧
    ∃ d1 d2, cleaner raw = Except.ok d1 ∧ targetDeriver d1 = Except.ok d2 ∧
      ds = categoricalEncoder (featureEngineer (outlierHandler (imputer d2))) ∧
      rk = importanceRanker ds := by
  obtain ⟨d1, d2, h1, h2, h3⟩ := (run_eq_ok_iff raw _).mp h
  simp only [Prod.mk.injEq] at h3
  obtain ⟨hds, hrep, hrk⟩ := h3
  refine ⟨?_, d1, d2, h1, h2, hds, by rw [hrk, hds]⟩
  intro hcond
  rw [hds] at hcond
  rw [hrk]
  unfold importanceRanker
  by_cases hlt :
      (categoricalEncoder (featureEngineer (outlierHandler (imputer d2)))).rows.length < 50
  · rw [if_pos hlt]
    exact ⟨_, rfl⟩
  · rw [if_neg hlt]
    have hcls := hcond.resolve_left hlt
    rw [if_pos hcls]
    exact ⟨_, rfl⟩

/-- A small raw dataset with the required columns: one duplicate-free set of
five encounters of which one is removed as an expired/hospice discharge and
one as an unknown-gender row, leaving three rows — far below the ranker's
50-row minimum. -/
def sampleRaw : Dataset :=
  Dataset.mk
    [("encounter_id", ColKind.identifier), ("discharge_disposition_id", ColKind.numeric),
     ("gender", ColKind.categorical), ("readmitted", ColKind.categorical),
     ("x", ColKind.numeric)]
    [[("encounter_id", Value.num 1), ("discharge_disposition_id", Value.num 1),
      ("gender", Value.cat "Male"), ("readmitted", Value.cat "<30"), ("x", Value.num 5)],
     [("encounter_id", Value.num 2), ("discharge_disposition_id", Value.num 2),
      ("gender", Value.cat "Female"), ("readmitted", Value.cat ">30"), ("x", Value.num 7)],
     [("encounter_id", Value.num 3), ("discharge_disposition_id", Value.num 1),
      ("gender", Value.cat "Male"), ("readmitted", Value.cat "NO"), ("x", Value.num 100)],
     [("encounter_id", Value.num 4), ("discharge_disposition_id", Value.num 11),
      ("gender", Value.cat "Male"), ("readmitted", Value.cat "NO"), ("x", Value.num 3)],
     [("encounter_id", Value.num 5), ("discharge_disposition_id", Value.num 1),
      ("gender", Value.cat "Unknown/Invalid"), ("readmitted", Value.cat "NO"),
      ("x", Value.num 4)]]

/-- The concrete triple produced by running the pipeline on `sampleRaw`. -/
def sampleTriple : Dataset × Report × Except InsufficientDataError (List ImportanceScore) :=
  match run sampleRaw with
  | Except.ok t => t
  | Except.error _ => (Dataset.mk [] [], Report.mk 0 0 0 0 0 0 [] [] [], Except.ok [])

theorem run_sampleRaw_eq : run sampleRaw = Except.ok sampleTriple := rfl

/-- Witness for C8: on the three-row sample the run succeeds while the
ranking result carries an InsufficientDataError. -/
theorem ranker_insufficient_data_witness :
    run sampleRaw = Except.ok sampleTriple ∧ ∃ e, sampleTriple.2.2 = Except.error e := by
  refine ⟨run_sampleRaw_eq, ?_⟩
  exact (ranker_insufficient_data sampleRaw sampleTriple.1 sampleTriple.2.1 sampleTriple.2.2
    (by rw [run_sampleRaw_eq])).1 (Or.inl (by decide))

end Pipeline

namespace Pipeline

/-- Count of rows whose readmission-status cell holds the given category. -/
def srcCount (d : Dataset) (s : String) : Nat :=
  (getColumn d readmissionCol).countP (fun v => v = Value.cat s)

theorem exceptMap_derive (rows : List Row)
    (h : ∀ r ∈ rows, rowGet r readmissionCol = Value.cat "<30" ∨
      rowGet r readmissionCol = Value.cat ">30" ∨ rowGet r readmissionCol = Value.cat "NO") :
    ∃ rows', exceptMap deriveRow rows = Except.ok rows' ∧
      rows'.map (fun r => rowGet r targetCol) =
        rows.map (fun r =>
          if rowGet r readmissionCol = Value.cat "<30" then Value.num 1 else Value.num 0) := by
  induction rows with
  | nil => exact ⟨[], rfl, rfl⟩
  | cons r rows ih =>
    obtain ⟨rows', hok, hmap⟩ := ih (fun x hx => h x (List.mem_cons_of_mem _ hx))
    rcases h r (List.mem_cons_self _ _) with h1 | h1 | h1
    · refine ⟨rowSet r targetCol (Value.num 1) :: rows', ?_, ?_⟩
      · simp [exceptMap, deriveRow, h1, hok]
      · simp [h1, hmap, rowGet_rowSet_same]
    · refine ⟨rowSet r targetCol (Value.num 0) :: rows', ?_, ?_⟩
      · simp [exceptMap, deriveRow, h1, hok]
      · simp [h1, hmap, rowGet_rowSet_same]
    · refine ⟨rowSet r targetCol (Value.num 0) :: rows', ?_, ?_⟩
      · simp [exceptMap, deriveRow, h1, hok]
      · simp [h1, hmap, rowGet_rowSet_same]

theorem countP_three_split (l : List Value)
    (hdom : ∀ v ∈ l, v = Value.cat "<30" ∨ v = Value.cat ">30" ∨ v = Value.cat "NO") :
    l.countP (fun v => ¬(v = Value.cat "<30")) =
      l.countP (fun v => v = Value.cat ">30") + l.countP (fun v => v = Value.cat "NO") := by
  induction l with
  | nil => rfl
  | cons v l ih =>
    have ihl := ih (fun x hx => hdom x (List.mem_cons_of_mem _ hx))
    simp only [decide_not] at ihl
    rcases hdom v (List.mem_cons_self _ _) with h1 | h1 | h1
    · subst h1; simp [List.countP_cons, ihl]
    · subst h1; simp [List.countP_cons, ihl]; omega
    · subst h1; simp [List.countP_cons, ihl]; omega

end Pipeline

namespace Pipeline

/-- C3: on every dataset whose readmission-status column holds only the
three expected categories, TargetDeriver succeeds and produces the new
binary column mapping exactly the "<30" category to 1 and the other two to
0, so the positive count equals the "<30" count and the negative count the
sum of the other two; in particular with category counts 92 / 300 / 277
the derived target has 92 positive rows and 577 negative rows. -/
theorem target_derivation_counts (d : Dataset)
    (hcol : readmissionCol ∈ schemaNames d)
    (hdom : ∀ v ∈ getColumn d readmissionCol,
      v = Value.cat "<30" ∨ v = Value.cat ">30" ∨ v = Value.cat "NO") :
    ∃ d', targetDeriver d = Except.ok d' ∧
      getColumn d' targetCol = (getColumn d readmissionCol).map
        (fun v => if v = Value.cat "<30" then Value.num 1 else Value.num 0) ∧
      targetCount d' 1 = srcCount d "<30" ∧
      targetCount d' 0 = srcCount d ">30" + srcCount d "NO" ∧
      (srcCount d "<30" = 92 → srcCount d ">30" = 300 → srcCount d "NO" = 277 →
        targetCount d' 1 = 92 ∧ targetCount d' 0 = 577) := by
  obtain ⟨rows', hok, hmap⟩ := exceptMap_derive d.rows
    (fun r hr => hdom _ (List.mem_map_of_mem _ hr))
  have hpos : rows'.countP (fun r => rowGet r targetCol = Value.num 1) =
      srcCount d "<30" := by
    have e1 : (rows'.map (fun r => rowGet r targetCol)).countP
        (fun v => v = Value.num 1) = rows'.countP
        (fun r => rowGet r targetCol = Value.num 1) :=
      List.countP_map _ _ _
    rw [← e1, hmap, List.countP_map]
    have e2 : d.rows.countP (fun r =>
        decide ((if rowGet r readmissionCol = Value.cat "<30" then Value.num 1
          else Value.num 0) = Value.num 1)) =
        d.rows.countP (fun r => rowGet r readmissionCol = Value.cat "<30") := by
      refine List.countP_congr ?_
      intro r _
      by_cases hc : rowGet r readmissionCol = Value.cat "<30" <;> simp [hc]
    simp only [Function.comp_def]
    rw [e2]
    have e3 : srcCount d "<30" = d.rows.countP
        (fun r => rowGet r readmissionCol = Value.cat "<30") := by
      unfold srcCount getColumn
      exact List.countP_map _ _ _
    rw [← e3]
  have hneg : rows'.countP (fun r => rowGet r targetCol = Value.num 0) =
      srcCount d ">30" + srcCount d "NO" := by
    have e1 : (rows'.map (fun r => rowGet r targetCol)).countP
        (fun v => v = Value.num 0) = rows'.countP
        (fun r => rowGet r targetCol = Value.num 0) :=
      List.countP_map _ _ _
    rw [← e1, hmap, List.countP_map]
    have e2 : d.rows.countP (fun r =>
        decide ((if rowGet r readmissionCol = Value.cat "<30" then Value.num 1
          else Value.num 0) = Value.num 0)) =
        d.rows.countP (fun r => ¬(rowGet r readmissionCol = Value.cat "<30")) := by
      refine List.countP_congr ?_
      intro r _
      by_cases hc : rowGet r readmissionCol = Value.cat "<30" <;> simp [hc]
    simp only [Function.comp_def]
    rw [e2]
    have e4 : d.rows.countP (fun r => ¬(rowGet r readmissionCol = Value.cat "<30")) =
        (getColumn d readmissionCol).countP (fun v => ¬(v = Value.cat "<30")) := by
      unfold getColumn
      rw [List.countP_map]
      simp only [Function.comp_def]
    rw [e4, countP_three_split _ hdom]
    have e5 : srcCount d ">30" = (getColumn d readmissionCol).countP
        (fun v => v = Value.cat ">30") := rfl
    have e6 : srcCount d "NO" = (getColumn d readmissionCol).countP
        (fun v => v = Value.cat "NO") := rfl
    rw [← e5, ← e6]
  refine ⟨Dataset.mk (d.schema.filter (fun ck => ck.1 ≠ targetCol) ++
    [(targetCol, ColKind.target)]) rows', ?_, ?_, hpos, hneg, ?_⟩
  · unfold targetDeriver
    rw [if_pos hcol, hok]
  · show rows'.map (fun r => rowGet r targetCol) = _
    rw [hmap]
    unfold getColumn
    rw [List.map_map]
    rfl
  · intro h92 h300 h277
    constructor
    · show rows'.countP (fun r => rowGet r targetCol = Value.num 1) = 92
      rw [hpos, h92]
    · show rows'.countP (fun r => rowGet r targetCol = Value.num 0) = 577
      rw [hneg, h300, h277]

end Pipeline

namespace Pipeline

/-- A readmission-status column with category counts 92 / 300 / 277, the
scenario of spec section 8. -/
def scenarioRaw : Dataset :=
  Dataset.mk [("readmitted", ColKind.categorical)]
    ((List.replicate 92 "<30" ++ List.replicate 300 ">30" ++ List.replicate 277 "NO").map
      (fun s => [("readmitted", Value.cat s)]))

/-- Witness for C3 at the concrete 669-row scenario dataset. -/
theorem target_derivation_counts_witness :
    ∃ d', targetDeriver scenarioRaw = Except.ok d' ∧
      targetCount d' 1 = 92 ∧ targetCount d' 0 = 577 := by
  obtain ⟨d', h1, h2, h3, h4, h5⟩ := target_derivation_counts scenarioRaw
    (by decide) (by decide)
  exact ⟨d', h1, h5 (by decide) (by decide) (by decide)⟩

end Pipeline

namespace Pipeline

/-- C7 (amended): for a non-identifier, non-target numeric column with at
least one missing value that is not entirely missing, the Imputer selects
exactly one strategy by the missing fraction — the median of the
non-missing values iff the fraction is strictly below 20%, and the
neighbor-based fill iff the fraction is at least 20%; a 100%-missing
column is dropped instead. -/
theorem imputer_strategy_by_fraction (d : Dataset) (c : String)
    (hmem : (c, ColKind.numeric) ∈ d.schema)
    (h1 : 0 < countMissing (getColumn d c))
    (h2 : countMissing (getColumn d c) < (getColumn d c).length) :
    (c, decideStrategy ColKind.numeric (getColumn d c)) ∈ imputeTargets d ∧
    (decideStrategy ColKind.numeric (getColumn d c) =
        Strategy.median (medianOf (numericValues (getColumn d c))) ↔
      missingFrac (getColumn d c) < 1 / 5) ∧
    (decideStrategy ColKind.numeric (getColumn d c) = Strategy.neighborFill ↔
      1 / 5 ≤ missingFrac (getColumn d c)) := by
  refine ⟨?_, ?_⟩
  · refine List.mem_filterMap.mpr ⟨(c, ColKind.numeric), hmem, ?_⟩
    simp [Nat.pos_iff_ne_zero.mp h1]
  · unfold decideStrategy
    rw [if_neg (Nat.ne_of_lt h2)]
    by_cases hf : missingFrac (getColumn d c) < 1 / 5
    · rw [if_pos hf]
      exact ⟨iff_of_true rfl hf, iff_of_false (by simp) (not_le.mpr hf)⟩
    · rw [if_neg hf]
      exact ⟨iff_of_false (by simp) hf, iff_of_true rfl (not_lt.mp hf)⟩

/-- Counterexample to C7 as stated: a numeric column that is 100% missing
has missing fraction 1 (at or above 20%), yet the Imputer's strategy for
it is Drop, not the neighbor-based fill and not a median fill. -/
theorem imputer_strategy_all_missing_counterexample :
    1 / 5 ≤ missingFrac [Value.missing, Value.missing] ∧
    decideStrategy ColKind.numeric [Value.missing, Value.missing] ≠ Strategy.neighborFill ∧
    (∀ q : ℚ, decideStrategy ColKind.numeric [Value.missing, Value.missing] ≠
      Strategy.median q) ∧
    decideStrategy ColKind.numeric [Value.missing, Value.missing] = Strategy.drop := by
  have heval : decideStrategy ColKind.numeric [Value.missing, Value.missing] =
      Strategy.drop := by decide
  refine ⟨?_, ?_, ?_, heval⟩
  · have h2 : countMissing [Value.missing, Value.missing] = 2 := by decide
    unfold missingFrac
    rw [h2]
    norm_num
  · rw [heval]
    decide
  · intro q
    rw [heval]
    simp

/-- A numeric column with one missing value out of six, missing fraction
1/6 < 20%. -/
def lowMissDataset : Dataset :=
  Dataset.mk [("x", ColKind.numeric)]
    [[("x", Value.num 1)], [("x", Value.num 2)], [("x", Value.num 3)],
     [("x", Value.num 4)], [("x", Value.num 9)], [("x", Value.missing)]]

/-- Witness for C7 (amended) at a concrete column with missing fraction
1/6: the median strategy is selected. -/
theorem imputer_strategy_by_fraction_witness :
    (("x", decideStrategy ColKind.numeric (getColumn lowMissDataset "x")) ∈
      imputeTargets lowMissDataset) ∧
    decideStrategy ColKind.numeric (getColumn lowMissDataset "x") =
      Strategy.median (medianOf (numericValues (getColumn lowMissDataset "x"))) := by
  have h := imputer_strategy_by_fraction lowMissDataset "x" (by decide) (by decide) (by decide)
  have hc : countMissing (getColumn lowMissDataset "x") = 1 := by decide
  have hl : (getColumn lowMissDataset "x").length = 6 := by decide
  have hfrac : missingFrac (getColumn lowMissDataset "x") < 1 / 5 := by
    unfold missingFrac
    rw [hc, hl]
    norm_num
  exact ⟨h.1, h.2.1.mpr hfrac⟩

end Pipeline

namespace Pipeline

theorem length_filter_ne_name (l : List (String × ColKind)) (c : String)
    (hnd : (l.map Prod.fst).Nodup) (hmem : ∃ k, (c, k) ∈ l) :
    (l.filter (fun ck => ck.1 ≠ c)).length = l.length - 1 := by
  induction l with
  | nil => obtain ⟨k, hk⟩ := hmem; exact absurd hk (List.not_mem_nil _)
  | cons a l ih =>
    rw [List.map_cons] at hnd
    obtain ⟨hna, hnl⟩ := List.nodup_cons.mp hnd
    by_cases hac : a.1 = c
    · have hall : l.filter (fun ck => ck.1 ≠ c) = l := by
        refine List.filter_eq_self.mpr ?_
        intro x hx
        have hxne : x.1 ≠ c := by
          intro hxc
          have hx1 : x.1 ∈ l.map Prod.fst := List.mem_map_of_mem Prod.fst hx
          rw [hxc, ← hac] at hx1
          exact hna hx1
        simpa using hxne
      rw [List.filter_cons, if_neg (by simp [hac])]
      rw [hall]
      simp
    · obtain ⟨k, hk⟩ := hmem
      have hkl : (c, k) ∈ l := by
        rcases List.mem_cons.mp hk with h | h
        · exact absurd (congrArg Prod.fst h.symm) hac
        · exact h
      have hlen : 1 ≤ l.length := List.length_pos.mpr (List.ne_nil_of_mem hkl)
      have := ih hnl ⟨k, hkl⟩
      simp only [List.filter_cons, List.length_cons]
      rw [if_pos (by simpa using hac)]
      simp only [List.length_cons, this]
      omega

theorem normalizeName_length (s : String) : (normalizeName s).length = s.length := by
  show (s.data.map _).length = s.data.length
  exact List.length_map _ _

theorem normalizeName_append_ne (c s : String) : normalizeName (c ++ "_" ++ s) ≠ c := by
  intro h
  have hlen := congrArg String.length h
  rw [normalizeName_length, String.length_append, String.length_append] at hlen
  have h1 : ("_" : String).length = 1 := rfl
  omega

/-- C6 (amended): CategoricalEncoder replaces a categorical column by one
0/1 indicator column per distinct category, removing the original, exactly
when the distinct-value count is at most 10 (net column-count change of
count − 1, so +9 at the boundary count of 10), and replaces it in place by
a single integer-code column exactly when the count exceeds 10 (column
count unchanged). -/
theorem encoder_cardinality_gate (d : Dataset) (c : String)
    (hmem : (c, ColKind.categorical) ∈ d.schema)
    (hnd : (schemaNames d).Nodup) :
    ((distinctCats (getColumn d c)).length ≤ 10 →
      (encodeOne d c).schema.length =
        d.schema.length - 1 + (distinctCats (getColumn d c)).length ∧
      ∀ k, (c, k) ∉ (encodeOne d c).schema) ∧
    (10 < (distinctCats (getColumn d c)).length →
      (encodeOne d c).schema.length = d.schema.length ∧
      (c, ColKind.numeric) ∈ (encodeOne d c).schema) := by
  constructor
  · intro hle
    unfold encodeOne
    rw [if_pos hle]
    constructor
    · simp only [List.length_append, List.length_map]
      rw [length_filter_ne_name d.schema c hnd ⟨_, hmem⟩]
    · intro k hk
      rcases List.mem_append.mp hk with h | h
      · have := List.of_mem_filter h
        simp at this
      · obtain ⟨s, hs, heq⟩ := List.mem_map.mp h
        exact normalizeName_append_ne c s (congrArg Prod.fst heq)
  · intro hgt
    unfold encodeOne
    rw [if_neg (not_le.mpr hgt)]
    constructor
    · exact List.length_map _ _
    · refine List.mem_map.mpr ⟨(c, ColKind.categorical), hmem, ?_⟩
      simp

/-- A dataset with a single categorical column of exactly 10 distinct
values. -/
def tenCatDataset : Dataset :=
  Dataset.mk [("col", ColKind.categorical)]
    [[("col", Value.cat "c0")], [("col", Value.cat "c1")], [("col", Value.cat "c2")],
     [("col", Value.cat "c3")], [("col", Value.cat "c4")], [("col", Value.cat "c5")],
     [("col", Value.cat "c6")], [("col", Value.cat "c7")], [("col", Value.cat "c8")],
     [("col", Value.cat "c9")]]

/-- A dataset with a single categorical column of exactly 11 distinct
values. -/
def elevenCatDataset : Dataset :=
  Dataset.mk [("col", ColKind.categorical)]
    [[("col", Value.cat "c0")], [("col", Value.cat "c1")], [("col", Value.cat "c2")],
     [("col", Value.cat "c3")], [("col", Value.cat "c4")], [("col", Value.cat "c5")],
     [("col", Value.cat "c6")], [("col", Value.cat "c7")], [("col", Value.cat "c8")],
     [("col", Value.cat "c9")], [("col", Value.cat "ca")]]

/-- Counterexample to C6 as stated: with 10 distinct values the one-hot
replacement changes the column count by +9 (10 indicators added, the
original removed), not +10; with 11 distinct values the ordinal
replacement leaves the column count unchanged, not +1. -/
theorem encoder_count_counterexample :
    (categoricalEncoder tenCatDataset).schema.length = tenCatDataset.schema.length + 9 ∧
    (categoricalEncoder tenCatDataset).schema.length ≠ tenCatDataset.schema.length + 10 ∧
    (categoricalEncoder elevenCatDataset).schema.length = elevenCatDataset.schema.length ∧
    (categoricalEncoder elevenCatDataset).schema.length ≠
      elevenCatDataset.schema.length + 1 := by
  decide

/-- Witness for C6 (amended) at the concrete 10- and 11-category columns. -/
theorem encoder_cardinality_gate_witness :
    ((distinctCats (getColumn tenCatDataset "col")).length ≤ 10 ∧
      (encodeOne tenCatDataset "col").schema.length =
        tenCatDataset.schema.length - 1 +
          (distinctCats (getColumn tenCatDataset "col")).length) ∧
    (10 < (distinctCats (getColumn elevenCatDataset "col")).length ∧
      (encodeOne elevenCatDataset "col").schema.length =
        elevenCatDataset.schema.length) := by
  refine ⟨⟨by decide, ?_⟩, ⟨by decide, ?_⟩⟩
  · exact ((encoder_cardinality_gate tenCatDataset "col" (by decide) (by decide)).1
      (by decide)).1
  · exact ((encoder_cardinality_gate elevenCatDataset "col" (by decide) (by decide)).2
      (by decide)).1

end Pipeline

namespace Pipeline

theorem clampByBounds_missing (b : List (String × ℚ × ℚ)) (k : String) :
    clampByBounds b k Value.missing = Value.missing := by
  unfold clampByBounds
  cases blookup k b with
  | none => rfl
  | some lh => rfl

theorem getColumn_outlierHandler (d : Dataset) (c : String) :
    getColumn (outlierHandler d) c =
      (getColumn d c).map (clampByBounds (mkBounds d) c) := by
  unfold outlierHandler getColumn
  simp only [List.map_map]
  refine List.map_congr_left ?_
  intro r _
  exact rowGet_rowMapVals _ r c (clampByBounds_missing _ _)

theorem blookup_mkBounds (d : Dataset) (c : String)
    (hmem : (c, ColKind.numeric) ∈ d.schema)
    (hnv : numericValues (getColumn d c) ≠ []) :
    blookup c (mkBounds d) =
      some (loBound (numericValues (getColumn d c)),
        hiBound (numericValues (getColumn d c))) := by
  unfold mkBounds
  generalize d.schema = l at hmem
  induction l with
  | nil => exact absurd hmem (List.not_mem_nil _)
  | cons a l ih =>
    rw [List.filterMap_cons]
    by_cases ha2 : a.2 = ColKind.numeric
    · by_cases hae : numericValues (getColumn d a.1) = []
      · have hfa : (if a.2 = ColKind.numeric then
            let nv := numericValues (getColumn d a.1)
            if nv = [] then none else some (a.1, loBound nv, hiBound nv)
          else none) = none := by
          rw [if_pos ha2]
          dsimp only
          rw [if_pos hae]
        rw [hfa]
        have hml : (c, ColKind.numeric) ∈ l := by
          rcases List.mem_cons.mp hmem with h | h
          · exfalso
            apply hnv
            rw [show c = a.1 from congrArg Prod.fst h]
            exact hae
          · exact h
        exact ih hml
      · have hfa : (if a.2 = ColKind.numeric then
            let nv := numericValues (getColumn d a.1)
            if nv = [] then none else some (a.1, loBound nv, hiBound nv)
          else none) = some (a.1, loBound (numericValues (getColumn d a.1)),
            hiBound (numericValues (getColumn d a.1))) := by
          rw [if_pos ha2]
          dsimp only
          rw [if_neg hae]
        rw [hfa]
        by_cases hac : a.1 = c
        · show (if a.1 = c then _ else _) = _
          rw [if_pos hac, hac]
        · have hml : (c, ColKind.numeric) ∈ l := by
            rcases List.mem_cons.mp hmem with h | h
            · exact absurd (congrArg Prod.fst h).symm hac
            · exact h
          show (if a.1 = c then _ else _) = _
          rw [if_neg hac]
          exact ih hml
    · have hfa : (if a.2 = ColKind.numeric then
          let nv := numericValues (getColumn d a.1)
          if nv = [] then none else some (a.1, loBound nv, hiBound nv)
        else none) = none := by
        rw [if_neg ha2]
      rw [hfa]
      have hml : (c, ColKind.numeric) ∈ l := by
        rcases List.mem_cons.mp hmem with h | h
        · exact absurd (congrArg Prod.snd h).symm ha2
        · exact h
      exact ih hml

end Pipeline

namespace Pipeline

/-- C4: for a numeric, non-identifier, non-target column with at least one
numeric value, OutlierHandler clips the column exactly to the bounds
[Q1 - 1.5*IQR, Q3 + 1.5*IQR] computed from the column's quartiles, leaves
the row count unchanged, and in particular with Q1 = 10 and Q3 = 30 the
bounds are [-20, 60], a value 75 becomes 60, a value -25 becomes -20, and
every in-bounds value is unchanged. -/
theorem outlier_quartile_clipping (d : Dataset) (c : String)
    (hmem : (c, ColKind.numeric) ∈ d.schema)
    (hnv : numericValues (getColumn d c) ≠ []) :
    getColumn (outlierHandler d) c =
      (getColumn d c).map
        (clampCell (loBound (numericValues (getColumn d c)))
          (hiBound (numericValues (getColumn d c)))) ∧
    (outlierHandler d).rows.length = d.rows.length ∧
    (quartile1 (numericValues (getColumn d c)) = 10 →
      quartile3 (numericValues (getColumn d c)) = 30 →
      loBound (numericValues (getColumn d c)) = -20 ∧
      hiBound (numericValues (getColumn d c)) = 60 ∧
      clampQ (loBound (numericValues (getColumn d c)))
        (hiBound (numericValues (getColumn d c))) 75 = 60 ∧
      clampQ (loBound (numericValues (getColumn d c)))
        (hiBound (numericValues (getColumn d c))) (-25) = -20 ∧
      ∀ x : ℚ, loBound (numericValues (getColumn d c)) ≤ x →
        x ≤ hiBound (numericValues (getColumn d c)) →
        clampQ (loBound (numericValues (getColumn d c)))
          (hiBound (numericValues (getColumn d c))) x = x) := by
  refine ⟨?_, ?_, ?_⟩
  · rw [getColumn_outlierHandler]
    refine List.map_congr_left ?_
    intro v _
    unfold clampByBounds
    rw [blookup_mkBounds d c hmem hnv]
  · show (d.rows.map _).length = d.rows.length
    exact List.length_map _ _
  · intro hq1 hq3
    have hlo : loBound (numericValues (getColumn d c)) = -20 := by
      unfold loBound
      rw [hq1, hq3]
      norm_num
    have hhi : hiBound (numericValues (getColumn d c)) = 60 := by
      unfold hiBound
      rw [hq1, hq3]
      norm_num
    refine ⟨hlo, hhi, ?_, ?_, ?_⟩
    · rw [hlo, hhi]
      unfold clampQ
      norm_num
    · rw [hlo, hhi]
      unfold clampQ
      norm_num
    · intro x hxlo hxhi
      unfold clampQ
      rw [min_eq_right hxhi, max_eq_right hxlo]

/-- A numeric column whose nearest-rank quartiles are Q1 = 10 and Q3 = 30. -/
def quartileDataset : Dataset :=
  Dataset.mk [("x", ColKind.numeric)]
    [[("x", Value.num 10)], [("x", Value.num 10)],
     [("x", Value.num 30)], [("x", Value.num 30)]]

/-- Witness for C4 at a concrete column with Q1 = 10 and Q3 = 30. -/
theorem outlier_quartile_clipping_witness :
    quartile1 (numericValues (getColumn quartileDataset "x")) = 10 ∧
    quartile3 (numericValues (getColumn quartileDataset "x")) = 30 ∧
    loBound (numericValues (getColumn quartileDataset "x")) = -20 ∧
    hiBound (numericValues (getColumn quartileDataset "x")) = 60 ∧
    clampQ (loBound (numericValues (getColumn quartileDataset "x")))
      (hiBound (numericValues (getColumn quartileDataset "x"))) 75 = 60 ∧
    clampQ (loBound (numericValues (getColumn quartileDataset "x")))
      (hiBound (numericValues (getColumn quartileDataset "x"))) (-25) = -20 ∧
    getColumn (outlierHandler quartileDataset) "x" =
      (getColumn quartileDataset "x").map
        (clampCell (loBound (numericValues (getColumn quartileDataset "x")))
          (hiBound (numericValues (getColumn quartileDataset "x")))) := by
  have hq1 : quartile1 (numericValues (getColumn quartileDataset "x")) = 10 := by decide
  have hq3 : quartile3 (numericValues (getColumn quartileDataset "x")) = 30 := by decide
  obtain ⟨hcol, hlen, himp⟩ :=
    outlier_quartile_clipping quartileDataset "x" (by decide) (by decide)
  obtain ⟨hlo, hhi, h75, h25, hfix⟩ := himp hq1 hq3
  exact ⟨hq1, hq3, hlo, hhi, h75, h25, hcol⟩

end Pipeline

namespace Pipeline

theorem clampQ_mono (lo hi a b : ℚ) (h : a ≤ b) :
    clampQ lo hi a ≤ clampQ lo hi b :=
  max_le_max le_rfl (min_le_min le_rfl h)

theorem clampQ_eq_self (lo hi x : ℚ) (hlo : lo ≤ x) (hhi : x ≤ hi) :
    clampQ lo hi x = x := by
  unfold clampQ
  rw [min_eq_right hhi, max_eq_right hlo]

theorem clampQ_idem (lo hi x : ℚ) (h : lo ≤ hi) :
    clampQ lo hi (clampQ lo hi x) = clampQ lo hi x := by
  refine clampQ_eq_self lo hi _ (le_max_left _ _) ?_
  unfold clampQ
  exact max_le h (min_le_left _ _)

theorem getD_map_of_lt (f : ℚ → ℚ) (l : List ℚ) (i : Nat) (h : i < l.length) :
    (l.map f).getD i 0 = f (l.getD i 0) := by
  rw [List.getD_eq_getElem?_getD, List.getD_eq_getElem?_getD, List.getElem?_map]
  rw [List.getElem?_eq_getElem h]
  simp

theorem sortQ_map_mono (f : ℚ → ℚ) (hf : ∀ a b : ℚ, a ≤ b → f a ≤ f b) (l : List ℚ) :
    sortQ (l.map f) = (sortQ l).map f := by
  refine List.eq_of_perm_of_sorted ?_ (List.sorted_insertionSort _ _) ?_
  · exact (List.perm_insertionSort _ _).trans ((List.perm_insertionSort _ l).map f).symm
  · exact List.Pairwise.map f hf (List.sorted_insertionSort _ l)

theorem sortQ_getD_mono (l : List ℚ) (i j : Nat) (hij : i ≤ j) (hj : j < l.length) :
    (sortQ l).getD i 0 ≤ (sortQ l).getD j 0 := by
  have hlen : (sortQ l).length = l.length := List.length_insertionSort _ l
  have hj' : j < (sortQ l).length := hlen ▸ hj
  have hi' : i < (sortQ l).length := lt_of_le_of_lt hij hj'
  have e1 : (sortQ l).getD i 0 = (sortQ l).get ⟨i, hi'⟩ := by
    rw [List.getD_eq_getElem?_getD, List.getElem?_eq_getElem hi']
    simp
  have e2 : (sortQ l).getD j 0 = (sortQ l).get ⟨j, hj'⟩ := by
    rw [List.getD_eq_getElem?_getD, List.getElem?_eq_getElem hj']
    simp
  rw [e1, e2]
  exact List.Sorted.rel_get_of_le (List.sorted_insertionSort _ l) hij

theorem quartile_indices (n : Nat) (h : 1 ≤ n) :
    (n + 3) / 4 - 1 ≤ (3 * n + 3) / 4 - 1 ∧ (3 * n + 3) / 4 - 1 < n := by
  omega

theorem quartile1_le_quartile3 (l : List ℚ) (h : l ≠ []) :
    quartile1 l ≤ quartile3 l := by
  have hn : 1 ≤ l.length := List.length_pos.mpr h
  obtain ⟨hij, hj⟩ := quartile_indices l.length hn
  exact sortQ_getD_mono l _ _ hij hj

theorem loBound_le_quartile1 (l : List ℚ) (h : l ≠ []) :
    loBound l ≤ quartile1 l := by
  have := quartile1_le_quartile3 l h
  unfold loBound
  linarith

theorem quartile3_le_hiBound (l : List ℚ) (h : l ≠ []) :
    quartile3 l ≤ hiBound l := by
  have := quartile1_le_quartile3 l h
  unfold hiBound
  linarith

theorem loBound_le_hiBound (l : List ℚ) (h : l ≠ []) :
    loBound l ≤ hiBound l :=
  le_trans (loBound_le_quartile1 l h)
    (le_trans (quartile1_le_quartile3 l h) (quartile3_le_hiBound l h))

theorem quartile1_map_clamp (l : List ℚ) (h : l ≠ []) :
    quartile1 (l.map (clampQ (loBound l) (hiBound l))) = quartile1 l := by
  have hn : 1 ≤ l.length := List.length_pos.mpr h
  obtain ⟨hij, hj⟩ := quartile_indices l.length hn
  have hi : (l.length + 3) / 4 - 1 < l.length := lt_of_le_of_lt hij hj
  unfold quartile1
  rw [List.length_map, sortQ_map_mono _ (clampQ_mono _ _)]
  rw [getD_map_of_lt _ _ _ (by unfold sortQ; rw [List.length_insertionSort]; exact hi)]
  refine clampQ_eq_self _ _ _ ?_ ?_
  · exact loBound_le_quartile1 l h
  · exact le_trans (quartile1_le_quartile3 l h) (quartile3_le_hiBound l h)

theorem quartile3_map_clamp (l : List ℚ) (h : l ≠ []) :
    quartile3 (l.map (clampQ (loBound l) (hiBound l))) = quartile3 l := by
  have hn : 1 ≤ l.length := List.length_pos.mpr h
  obtain ⟨hij, hj⟩ := quartile_indices l.length hn
  unfold quartile3
  rw [List.length_map, sortQ_map_mono _ (clampQ_mono _ _)]
  rw [getD_map_of_lt _ _ _ (by unfold sortQ; rw [List.length_insertionSort]; exact hj)]
  refine clampQ_eq_self _ _ _ ?_ ?_
  · exact le_trans (loBound_le_quartile1 l h) (quartile1_le_quartile3 l h)
  · exact quartile3_le_hiBound l h

theorem loBound_congr (l1 l2 : List ℚ) (h1 : quartile1 l1 = quartile1 l2)
    (h3 : quartile3 l1 = quartile3 l2) : loBound l1 = loBound l2 := by
  unfold loBound
  rw [h1, h3]

theorem hiBound_congr (l1 l2 : List ℚ) (h1 : quartile1 l1 = quartile1 l2)
    (h3 : quartile3 l1 = quartile3 l2) : hiBound l1 = hiBound l2 := by
  unfold hiBound
  rw [h1, h3]

theorem loBound_map_clamp (l : List ℚ) (h : l ≠ []) :
    loBound (l.map (clampQ (loBound l) (hiBound l))) = loBound l :=
  loBound_congr _ _ (quartile1_map_clamp l h) (quartile3_map_clamp l h)

theorem hiBound_map_clamp (l : List ℚ) (h : l ≠ []) :
    hiBound (l.map (clampQ (loBound l) (hiBound l))) = hiBound l :=
  hiBound_congr _ _ (quartile1_map_clamp l h) (quartile3_map_clamp l h)

theorem numericValues_map_clampCell (lo hi : ℚ) (col : List Value) :
    numericValues (col.map (clampCell lo hi)) = (numericValues col).map (clampQ lo hi) := by
  induction col with
  | nil => rfl
  | cons v col ih =>
    cases v with
    | num q => simpa [numericValues, clampCell] using ih
    | cat s => simpa [numericValues, clampCell] using ih
    | missing => simpa [numericValues, clampCell] using ih

end Pipeline

namespace Pipeline

theorem blookup_none_of_empty (d : Dataset) (c : String)
    (h : numericValues (getColumn d c) = []) :
    blookup c (mkBounds d) = none := by
  unfold mkBounds
  induction d.schema with
  | nil => rfl
  | cons a l ih =>
    rw [List.filterMap_cons]
    by_cases ha2 : a.2 = ColKind.numeric
    · by_cases hae : numericValues (getColumn d a.1) = []
      · have hfa : (if a.2 = ColKind.numeric then
            let nv := numericValues (getColumn d a.1)
            if nv = [] then none else some (a.1, loBound nv, hiBound nv)
          else none) = none := by
          rw [if_pos ha2]
          dsimp only
          rw [if_pos hae]
        rw [hfa]
        exact ih
      · have hfa : (if a.2 = ColKind.numeric then
            let nv := numericValues (getColumn d a.1)
            if nv = [] then none else some (a.1, loBound nv, hiBound nv)
          else none) = some (a.1, loBound (numericValues (getColumn d a.1)),
            hiBound (numericValues (getColumn d a.1))) := by
          rw [if_pos ha2]
          dsimp only
          rw [if_neg hae]
        rw [hfa]
        have hac : ¬(a.1 = c) := by
          intro hh
          rw [hh] at hae
          exact hae h
        show (if a.1 = c then _ else _) = _
        rw [if_neg hac]
        exact ih
    · have hfa : (if a.2 = ColKind.numeric then
          let nv := numericValues (getColumn d a.1)
          if nv = [] then none else some (a.1, loBound nv, hiBound nv)
        else none) = none := by
        rw [if_neg ha2]
      rw [hfa]
      exact ih

theorem blookup_mem (c : String) (b : List (String × ℚ × ℚ)) (p : ℚ × ℚ)
    (h : blookup c b = some p) : (c, p) ∈ b := by
  induction b with
  | nil => exact absurd h (by simp [blookup])
  | cons a b ih =>
    by_cases hac : a.1 = c
    · have : (if a.1 = c then some a.2 else blookup c b) = some p := h
      rw [if_pos hac] at this
      have hp : a.2 = p := Option.some.injEq _ _ ▸ this
      have : (c, p) = a := by
        rw [← hac, ← hp]
      rw [this]
      exact List.mem_cons_self _ _
    · have : (if a.1 = c then some a.2 else blookup c b) = some p := h
      rw [if_neg hac] at this
      exact List.mem_cons_of_mem _ (ih this)

theorem mkBounds_entry_bounds (d : Dataset) (k : String) (p : ℚ × ℚ)
    (h : (k, p) ∈ mkBounds d) :
    ∃ nv : List ℚ, nv ≠ [] ∧ p = (loBound nv, hiBound nv) := by
  obtain ⟨ck, hck, hfck⟩ := List.mem_filterMap.mp h
  by_cases ha2 : ck.2 = ColKind.numeric
  · rw [if_pos ha2] at hfck
    dsimp only at hfck
    by_cases hae : numericValues (getColumn d ck.1) = []
    · rw [if_pos hae] at hfck
      exact absurd hfck (by simp)
    · rw [if_neg hae] at hfck
      refine ⟨numericValues (getColumn d ck.1), hae, ?_⟩
      have := (Option.some.injEq _ _).mp hfck
      exact (congrArg Prod.snd this).symm
  · rw [if_neg ha2] at hfck
    exact absurd hfck (by simp)

theorem getColumn_outlier_of_none (d : Dataset) (c : String)
    (hb : blookup c (mkBounds d) = none) :
    getColumn (outlierHandler d) c = getColumn d c := by
  rw [getColumn_outlierHandler]
  calc (getColumn d c).map (clampByBounds (mkBounds d) c)
      = (getColumn d c).map id :=
        List.map_congr_left (fun v _ => by unfold clampByBounds; rw [hb]; rfl)
    _ = getColumn d c := List.map_id _

theorem mkBounds_outlierHandler (d : Dataset) :
    mkBounds (outlierHandler d) = mkBounds d := by
  show (outlierHandler d).schema.filterMap _ = mkBounds d
  unfold mkBounds
  refine List.filterMap_congr ?_
  intro ck hck
  by_cases ha2 : ck.2 = ColKind.numeric
  · rw [if_pos ha2, if_pos ha2]
    dsimp only
    by_cases hae : numericValues (getColumn d ck.1) = []
    · rw [getColumn_outlier_of_none d ck.1 (blookup_none_of_empty d ck.1 hae)]
    · have hmem : (ck.1, ColKind.numeric) ∈ d.schema := by
        rw [show (ck.1, ColKind.numeric) = ck from by rw [← ha2]]
        exact hck
      have hb := blookup_mkBounds d ck.1 hmem hae
      have hcol : getColumn (outlierHandler d) ck.1 =
          (getColumn d ck.1).map
            (clampCell (loBound (numericValues (getColumn d ck.1)))
              (hiBound (numericValues (getColumn d ck.1)))) := by
        rw [getColumn_outlierHandler]
        exact List.map_congr_left (fun v _ => by unfold clampByBounds; rw [hb])
      rw [hcol, numericValues_map_clampCell]
      have hne : (numericValues (getColumn d ck.1)).map
          (clampQ (loBound (numericValues (getColumn d ck.1)))
            (hiBound (numericValues (getColumn d ck.1)))) ≠ [] := by
        intro hh
        exact hae (List.map_eq_nil_iff.mp hh)
      rw [if_neg hne, if_neg hae, loBound_map_clamp _ hae, hiBound_map_clamp _ hae]
  · rw [if_neg ha2, if_neg ha2]

theorem clampByBounds_idem (d : Dataset) (k : String) (v : Value) :
    clampByBounds (mkBounds d) k (clampByBounds (mkBounds d) k v) =
      clampByBounds (mkBounds d) k v := by
  unfold clampByBounds
  cases hb : blookup k (mkBounds d) with
  | none => rfl
  | some p =>
    obtain ⟨nv, hnv, hp⟩ := mkBounds_entry_bounds d k p (blookup_mem _ _ _ hb)
    cases v with
    | num q =>
      have hle : p.1 ≤ p.2 := by
        rw [hp]
        exact loBound_le_hiBound nv hnv
      show Value.num (clampQ p.1 p.2 (clampQ p.1 p.2 q)) = Value.num (clampQ p.1 p.2 q)
      rw [clampQ_idem _ _ _ hle]
    | cat s => rfl
    | missing => rfl

/-- C5: OutlierHandler is idempotent — applying the stage twice in
succession yields a dataset identical to applying it once. -/
theorem outlierHandler_idempotent (d : Dataset) :
    outlierHandler (outlierHandler d) = outlierHandler d := by
  have hrows : (outlierHandler d).rows.map
      (rowMapVals (clampByBounds (mkBounds (outlierHandler d)))) =
      (outlierHandler d).rows := by
    rw [mkBounds_outlierHandler]
    show (d.rows.map (rowMapVals (clampByBounds (mkBounds d)))).map
        (rowMapVals (clampByBounds (mkBounds d))) =
      d.rows.map (rowMapVals (clampByBounds (mkBounds d)))
    rw [List.map_map]
    refine List.map_congr_left ?_
    intro r _
    show rowMapVals (clampByBounds (mkBounds d))
        (rowMapVals (clampByBounds (mkBounds d)) r) =
      rowMapVals (clampByBounds (mkBounds d)) r
    rw [rowMapVals_rowMapVals]
    unfold rowMapVals
    refine List.map_congr_left ?_
    intro kv _
    show (kv.1, clampByBounds (mkBounds d) kv.1 (clampByBounds (mkBounds d) kv.1 kv.2)) =
      (kv.1, clampByBounds (mkBounds d) kv.1 kv.2)
    rw [clampByBounds_idem]
  show Dataset.mk (outlierHandler d).schema
      ((outlierHandler d).rows.map
        (rowMapVals (clampByBounds (mkBounds (outlierHandler d))))) =
    outlierHandler d
  rw [hrows]

end Pipeline

namespace Pipeline

/-- All rows of the dataset hold 0 or 1 in the derived target column. -/
def targetBinary (d : Dataset) : Prop :=
  ∀ r ∈ d.rows, rowGet r targetCol = Value.num 0 ∨ rowGet r targetCol = Value.num 1

/-- Every schema entry named like the target column has the target kind. -/
def targetSchemaOk (d : Dataset) : Prop :=
  ∀ k, (targetCol, k) ∈ d.schema → k = ColKind.target

theorem rowGet_rowMapVals_fix (f : String → Value → Value) (r : Row) (t : String)
    (hf : ∀ w, f t w = w) : rowGet (rowMapVals f r) t = rowGet r t := by
  unfold rowGet
  rw [rlookup_rowMapVals]
  cases rlookup t r with
  | none => rfl
  | some w => simp [hf]

theorem exceptMap_mem {ε α β : Type} (f : α → Except ε β) (l : List α) (l' : List β)
    (h : exceptMap f l = Except.ok l') :
    ∀ y ∈ l', ∃ x ∈ l, f x = Except.ok y := by
  induction l generalizing l' with
  | nil =>
    obtain rfl : ([] : List β) = l' := (Except.ok.injEq _ _).mp h
    intro y hy
    exact absurd hy (List.not_mem_nil _)
  | cons x xs ih =>
    unfold exceptMap at h
    cases hfx : f x with
    | error e => rw [hfx] at h; exact absurd h (by simp)
    | ok y0 =>
      rw [hfx] at h
      cases hm : exceptMap f xs with
      | error e => rw [hm] at h; exact absurd h (by simp)
      | ok ys =>
        rw [hm] at h
        obtain rfl : y0 :: ys = l' := (Except.ok.injEq _ _).mp h
        intro y hy
        rcases List.mem_cons.mp hy with rfl | hy
        · exact ⟨x, List.mem_cons_self _ _, hfx⟩
        · obtain ⟨x', hx', hfx'⟩ := ih ys hm y hy
          exact ⟨x', List.mem_cons_of_mem _ hx', hfx'⟩

theorem targetDeriver_targetOk (d d' : Dataset) (h : targetDeriver d = Except.ok d') :
    targetSchemaOk d' ∧ targetBinary d' := by
  unfold targetDeriver at h
  by_cases hcol : readmissionCol ∈ schemaNames d
  · rw [if_pos hcol] at h
    cases hm : exceptMap deriveRow d.rows with
    | error e => rw [hm] at h; exact absurd h (by simp)
    | ok rows' =>
      rw [hm] at h
      obtain rfl := (Except.ok.injEq _ _).mp h
      constructor
      · intro k hk
        rcases List.mem_append.mp hk with hh | hh
        · have := List.of_mem_filter hh
          simp at this
        · have heq := List.mem_singleton.mp hh
          exact congrArg Prod.snd heq
      · intro r hr
        obtain ⟨x, hx, hfx⟩ := exceptMap_mem deriveRow d.rows rows' hm r hr
        unfold deriveRow at hfx
        by_cases h1 : rowGet x readmissionCol = Value.cat "<30"
        · rw [if_pos h1] at hfx
          obtain rfl := (Except.ok.injEq _ _).mp hfx
          right
          exact rowGet_rowSet_same _ _ _
        · rw [if_neg h1] at hfx
          by_cases h2 : rowGet x readmissionCol = Value.cat ">30" ∨
              rowGet x readmissionCol = Value.cat "NO"
          · rw [if_pos h2] at hfx
            obtain rfl := (Except.ok.injEq _ _).mp hfx
            left
            exact rowGet_rowSet_same _ _ _
          · rw [if_neg h2] at hfx
            exact absurd hfx (by simp)
  · rw [if_neg hcol] at h
    exact absurd h (by simp)

end Pipeline

namespace Pipeline

theorem applyStrategy_targetOk (d : Dataset) (c : String) (s : Strategy)
    (hc : c ≠ targetCol) (h : targetSchemaOk d ∧ targetBinary d) :
    targetSchemaOk (applyStrategy d c s) ∧ targetBinary (applyStrategy d c s) := by
  have hfix : ∀ (v : Value) (w : Value),
      (if targetCol = c ∧ w = Value.missing then v else w) = w := by
    intro v w
    rw [if_neg]
    rintro ⟨h1, -⟩
    exact hc h1.symm
  cases s with
  | mode v =>
    refine ⟨h.1, ?_⟩
    intro r' hr'
    obtain ⟨r, hr, rfl⟩ := List.mem_map.mp hr'
    rw [rowGet_rowMapVals_fix _ _ _ (hfix v)]
    exact h.2 r hr
  | median q =>
    refine ⟨h.1, ?_⟩
    intro r' hr'
    obtain ⟨r, hr, rfl⟩ := List.mem_map.mp hr'
    rw [rowGet_rowMapVals_fix _ _ _ (hfix (Value.num q))]
    exact h.2 r hr
  | neighborFill =>
    refine ⟨h.1, ?_⟩
    intro r' hr'
    obtain ⟨r, hr, rfl⟩ := List.mem_map.mp hr'
    rw [rowGet_rowMapVals_fix _ _ _ (hfix (Value.num (knnEstimate d c r)))]
    exact h.2 r hr
  | drop =>
    constructor
    · intro k hk
      exact h.1 k (List.mem_of_mem_filter hk)
    · intro r' hr'
      obtain ⟨r, hr, rfl⟩ := List.mem_map.mp hr'
      rw [rowGet_rowDrop_ne r c targetCol (Ne.symm hc)]
      exact h.2 r hr

theorem foldl_applyStrategy_targetOk (L : List (String × Strategy)) (d : Dataset)
    (hL : ∀ p ∈ L, p.1 ≠ targetCol) (h : targetSchemaOk d ∧ targetBinary d) :
    targetSchemaOk (L.foldl (fun acc cs => applyStrategy acc cs.1 cs.2) d) ∧
    targetBinary (L.foldl (fun acc cs => applyStrategy acc cs.1 cs.2) d) := by
  induction L generalizing d with
  | nil => exact h
  | cons p L ih =>
    rw [List.foldl_cons]
    exact ih (applyStrategy d p.1 p.2)
      (fun q hq => hL q (List.mem_cons_of_mem _ hq))
      (applyStrategy_targetOk d p.1 p.2 (hL p (List.mem_cons_self _ _)) h)

theorem imputeTargets_ne_target (d : Dataset) (h : targetSchemaOk d) :
    ∀ p ∈ imputeTargets d, p.1 ≠ targetCol := by
  intro p hp
  obtain ⟨ck, hck, hfck⟩ := List.mem_filterMap.mp hp
  by_cases h1 : ck.2 = ColKind.identifier ∨ ck.2 = ColKind.target
  · rw [if_pos h1] at hfck
    exact absurd hfck (by simp)
  · rw [if_neg h1] at hfck
    by_cases h2 : countMissing (getColumn d ck.1) = 0
    · rw [if_pos h2] at hfck
      exact absurd hfck (by simp)
    · rw [if_neg h2] at hfck
      have hp1 : p.1 = ck.1 := (congrArg Prod.fst ((Option.some.injEq _ _).mp hfck)).symm
      rw [hp1]
      intro hct
      apply h1
      right
      apply h ck.2
      rw [← hct]
      rw [show (ck.1, ck.2) = ck from rfl]
      exact hck

theorem imputer_targetOk (d : Dataset) (h : targetSchemaOk d ∧ targetBinary d) :
    targetSchemaOk (imputer d) ∧ targetBinary (imputer d) :=
  foldl_applyStrategy_targetOk (imputeTargets d) d (imputeTargets_ne_target d h.1) h

theorem mkBounds_entry_name (d : Dataset) (b : String × ℚ × ℚ)
    (h : b ∈ mkBounds d) : (b.1, ColKind.numeric) ∈ d.schema := by
  obtain ⟨ck, hck, hfck⟩ := List.mem_filterMap.mp h
  by_cases ha2 : ck.2 = ColKind.numeric
  · rw [if_pos ha2] at hfck
    dsimp only at hfck
    by_cases hae : numericValues (getColumn d ck.1) = []
    · rw [if_pos hae] at hfck
      exact absurd hfck (by simp)
    · rw [if_neg hae] at hfck
      have hb1 : b.1 = ck.1 := (congrArg Prod.fst ((Option.some.injEq _ _).mp hfck)).symm
      rw [hb1, show (ck.1, ColKind.numeric) = ck from by rw [← ha2]]
      exact hck
  · rw [if_neg ha2] at hfck
    exact absurd hfck (by simp)

theorem blookup_eq_none_of_all_ne (t : String) (b : List (String × ℚ × ℚ))
    (h : ∀ x ∈ b, x.1 ≠ t) : blookup t b = none := by
  induction b with
  | nil => rfl
  | cons a b ih =>
    show (if a.1 = t then some a.2 else blookup t b) = none
    rw [if_neg (h a (List.mem_cons_self _ _))]
    exact ih (fun x hx => h x (List.mem_cons_of_mem _ hx))

theorem outlierHandler_targetOk (d : Dataset) (h : targetSchemaOk d ∧ targetBinary d) :
    targetSchemaOk (outlierHandler d) ∧ targetBinary (outlierHandler d) := by
  have hb : blookup targetCol (mkBounds d) = none := by
    refine blookup_eq_none_of_all_ne _ _ ?_
    intro x hx hxt
    have hmem := mkBounds_entry_name d x hx
    rw [hxt] at hmem
    exact absurd (h.1 ColKind.numeric hmem) (by simp)
  refine ⟨h.1, ?_⟩
  intro r' hr'
  obtain ⟨r, hr, rfl⟩ := List.mem_map.mp hr'
  rw [rowGet_rowMapVals_fix _ _ _ (fun w => by unfold clampByBounds; rw [hb])]
  exact h.2 r hr

theorem addColIf_targetOk (d : Dataset) (srcs : List String) (name : String)
    (k : ColKind) (f : Row → Value) (hname : name ≠ targetCol)
    (h : targetSchemaOk d ∧ targetBinary d) :
    targetSchemaOk (addColIf d srcs name k f) ∧
    targetBinary (addColIf d srcs name k f) := by
  unfold addColIf
  by_cases hall : srcs.all (fun s => s ∈ schemaNames d) = true
  · rw [if_pos hall]
    constructor
    · intro k' hk'
      rcases List.mem_append.mp hk' with hh | hh
      · exact h.1 k' (List.mem_of_mem_filter hh)
      · have heq := List.mem_singleton.mp hh
        exact absurd (congrArg Prod.fst heq).symm hname
    · intro r' hr'
      obtain ⟨r, hr, rfl⟩ := List.mem_map.mp hr'
      rw [rowGet_rowSet_ne r name targetCol (f r) (Ne.symm hname)]
      exact h.2 r hr
  · rw [if_neg hall]
    exact h

theorem featureEngineer_targetOk (d : Dataset)
    (h : targetSchemaOk d ∧ targetBinary d) :
    targetSchemaOk (featureEngineer d) ∧ targetBinary (featureEngineer d) := by
  unfold featureEngineer
  exact addColIf_targetOk _ _ _ _ _ (by decide)
    (addColIf_targetOk _ _ _ _ _ (by decide)
      (addColIf_targetOk _ _ _ _ _ (by decide)
        (addColIf_targetOk _ _ _ _ _ (by decide)
          (addColIf_targetOk _ _ _ _ _ (by decide)
            (addColIf_targetOk _ _ _ _ _ (by decide)
              (addColIf_targetOk _ _ _ _ _ (by decide) h))))))

end Pipeline

namespace Pipeline

theorem encodeOne_targetBinary (d : Dataset) (c : String) (hc : c ≠ targetCol)
    (h : targetBinary d) : targetBinary (encodeOne d c) := by
  unfold encodeOne
  by_cases hcard : (distinctCats (getColumn d c)).length ≤ 10
  · rw [if_pos hcard]
    intro r' hr'
    obtain ⟨r, hr, rfl⟩ := List.mem_map.mp hr'
    have hbin := h r hr
    unfold rowGet at hbin ⊢
    cases hrl : rlookup targetCol r with
    | none =>
      rw [hrl] at hbin
      simp at hbin
    | some v =>
      rw [hrl] at hbin
      rw [rlookup_append]
      have hdrop : rlookup targetCol (rowDrop r c) = some v := by
        unfold rowDrop
        rw [rlookup_filter_ne r c targetCol (Ne.symm hc)]
        exact hrl
      rw [hdrop]
      simpa using hbin
  · rw [if_neg hcard]
    intro r' hr'
    obtain ⟨r, hr, rfl⟩ := List.mem_map.mp hr'
    rw [rowGet_rowMapVals_fix _ _ _ (fun w => by
      rw [if_neg]
      exact fun hh => hc hh.symm)]
    exact h r hr

theorem encoder_fold_targetBinary (cols : List String) (d : Dataset)
    (hcols : ∀ c ∈ cols, c ≠ targetCol) (h : targetBinary d) :
    targetBinary (cols.foldl encodeOne d) := by
  induction cols generalizing d with
  | nil => exact h
  | cons c cols ih =>
    rw [List.foldl_cons]
    exact ih (encodeOne d c)
      (fun x hx => hcols x (List.mem_cons_of_mem _ hx))
      (encodeOne_targetBinary d c (hcols c (List.mem_cons_self _ _)) h)

theorem categoricalEncoder_targetBinary (d : Dataset)
    (h : targetSchemaOk d ∧ targetBinary d) :
    targetBinary (categoricalEncoder d) := by
  refine encoder_fold_targetBinary _ _ ?_ h.2
  intro c hc
  obtain ⟨ck, hck, hfck⟩ := List.mem_filterMap.mp hc
  by_cases h2 : ck.2 = ColKind.categorical
  · rw [if_pos h2] at hfck
    have hc1 : ck.1 = c := (Option.some.injEq _ _).mp hfck
    intro hct
    have hmem : (targetCol, ck.2) ∈ d.schema := by
      rw [show (targetCol, ck.2) = ck from by rw [← hct, ← hc1]]
      exact hck
    have := h.1 ck.2 hmem
    rw [h2] at this
    exact absurd this (by simp)
  · rw [if_neg h2] at hfck
    exact absurd hfck (by simp)

/-- C2: on every raw dataset on which the pipeline completes, the derived
binary target column contains only the values 0 and 1, and this holds
after every stage that runs once the target column exists — after
TargetDeriver, Imputer, OutlierHandler, FeatureEngineer and
CategoricalEncoder, hence in the final processed dataset. -/
theorem target_binary_invariant (raw ds : Dataset) (rep : Report)
    (rk : Except InsufficientDataError (List ImportanceScore))
    (h : run raw = Except.ok (ds, rep, rk)) :
    ∃ d1 d2, cleaner raw = Except.ok d1 ∧ targetDeriver d1 = Except.ok d2 ∧
      targetBinary d2 ∧ targetBinary (imputer d2) ∧
      targetBinary (outlierHandler (imputer d2)) ∧
      targetBinary (featureEngineer (outlierHandler (imputer d2))) ∧
      ds = categoricalEncoder (featureEngineer (outlierHandler (imputer d2))) ∧
      targetBinary ds := by
  obtain ⟨d1, d2, h1, h2, h3⟩ := (run_eq_ok_iff raw _).mp h
  simp only [Prod.mk.injEq] at h3
  obtain ⟨hds, hrep, hrk⟩ := h3
  have hok2 := targetDeriver_targetOk d1 d2 h2
  have hok3 := imputer_targetOk d2 hok2
  have hok4 := outlierHandler_targetOk (imputer d2) hok3
  have hok5 := featureEngineer_targetOk (outlierHandler (imputer d2)) hok4
  have hok6 := categoricalEncoder_targetBinary
    (featureEngineer (outlierHandler (imputer d2))) hok5
  refine ⟨d1, d2, h1, h2, hok2.2, hok3.2, hok4.2, hok5.2, hds, ?_⟩
  rw [hds]
  exact hok6

/-- Witness for C2: the pipeline completes on the sample dataset and the
processed dataset's target column is binary. -/
theorem target_binary_invariant_witness :
    run sampleRaw = Except.ok sampleTriple ∧ targetBinary sampleTriple.1 := by
  refine ⟨run_sampleRaw_eq, ?_⟩
  obtain ⟨d1, d2, h1, h2, hb2, hb3, hb4, hb5, hds, hbin⟩ :=
    target_binary_invariant sampleRaw sampleTriple.1 sampleTriple.2.1 sampleTriple.2.2
      (by rw [run_sampleRaw_eq])
  exact hbin

end Pipeline
